import Mathlib

/-!
# Intrinsics tester: vector utilities and the static trial loop

A shallow embedding of `intrinsics_tester/vectorutil.h` and
`intrinsics_tester/testLoop.h`.

* A vector operand (`__m128i`, `__m256i`, `__m512i`, or the scalar `int32_t`)
  is its bit pattern, a natural number; bit `k` of the number is bit `k` of the
  register (x86 is little-endian, so the element `i` read through a pointer to
  `w`-bit integers is the bits `w*i .. w*i + w - 1`).
* Signed machine integers are `Int`, wrapped explicitly to their width.
* A thrown `std::invalid_argument` is a `Fault`.
* `randomizer.h` is not among the sources: the random generator is a parameter
  (`Randomizer`), its state is passed explicitly.
* In `printVec` a read of the operand through a cast pointer that is not a
  permitted access has no value the source determines: what the built program
  delivers there is a parameter (`punned`).
-/

namespace IntrinsicsTester

/-! ## Data model -/

/-- The operand types the templates are instantiated with; `other` stands for
any type that `bitSize` does not know. -/
inductive VType where
  | m512i
  | m256i
  | m128i
  | int32_t
  | other
  deriving DecidableEq, Repr

/-- The exception thrown by the utilities, with its message. -/
inductive Fault where
  | invalid_argument (msg : String)
  deriving DecidableEq, Repr

deriving instance DecidableEq for Except

/-- The element types of the pointer variant
`std::variant<int64_t *, int32_t *, int16_t *, int8_t *>`. -/
inductive ElemTy where
  | int64_t
  | int32_t
  | int16_t
  | int8_t
  deriving DecidableEq, Repr

/-- Width in bits of an element type. -/
def ElemTy.bits : ElemTy → Nat
  | .int64_t => 64
  | .int32_t => 32
  | .int16_t => 16
  | .int8_t => 8

/-- The function `bitSize<type>()`. -/
def bitSize : VType → Except Fault Nat
  | .m512i => .ok 512
  | .m256i => .ok 256
  | .m128i => .ok 128
  | .int32_t => .ok 32
  | .other => .error (.invalid_argument
      "bitSize: Must be a type of __m128i, __m256i, __m512i, or int32_t")

/-- The two's complement reading of the low `w` bits of `x` as a signed
`w`-bit integer. -/
def toSigned (w : Nat) (x : Nat) : Int :=
  if x % 2 ^ w < 2 ^ (w - 1) then ((x % 2 ^ w : Nat) : Int)
  else ((x % 2 ^ w : Nat) : Int) - ((2 ^ w : Nat) : Int)

/-- The bits `w*i .. w*i + w - 1` of `input`, as an unsigned number. -/
def laneBits (w : Nat) (input : Nat) (i : Nat) : Nat :=
  input / 2 ^ (w * i) % 2 ^ w

/-- The element `arg[i]` read through a pointer of element type `t` to the
operand `input`. -/
def readLane (t : ElemTy) (input : Nat) (i : Nat) : Int :=
  toSigned t.bits (laneBits t.bits input i)

/-- The `if constexpr` chain that picks the pointer alternative for `bitwidth`
in `printVec` and `areEqual`. -/
def lanePointer (bitwidth : Nat) : Except Fault ElemTy :=
  if bitwidth = 64 then .ok .int64_t
  else if bitwidth = 32 then .ok .int32_t
  else if bitwidth = 16 then .ok .int16_t
  else if bitwidth = 8 then .ok .int8_t
  else .error (.invalid_argument "Bitwidth must be powers of 2 between 2 and 64")

/-! ## areEqual -/

/-- The loop `for (i = ...; i < n; ++i)` of `areEqual`, with `remaining`
iterations left, the next one at index `i`: the first differing lane returns
`false`, running off the end returns `true`. -/
def areEqualLoop (t : ElemTy) (input1 input2 : Nat) : (remaining : Nat) → (i : Nat) → Bool
  | 0, _ => true
  | k + 1, i =>
    if readLane t input1 i != readLane t input2 i then false
    else areEqualLoop t input1 input2 k (i + 1)

/-- The function `areEqual<bitwidth, type>(input1, input2)`. -/
def areEqual (bitwidth : Nat) (ty : VType) (input1 input2 : Nat) : Except Fault Bool :=
  match lanePointer bitwidth with
  | .error e => .error e
  | .ok t =>
    match bitSize ty with
    | .error e => .error e
    | .ok vectorBitSize =>
      match bitSize ty with
      | .error e => .error e
      | .ok size2 =>
        if vectorBitSize != size2 then
          .error (.invalid_argument "Vectors can't be equal - differing sizes!")
        else
          .ok (areEqualLoop t input1 input2 (vectorBitSize / bitwidth) 0)

/-- The value `v` with bit `k` flipped. -/
def flipBit (v k : Nat) : Nat := v ^^^ 2 ^ k

/-! ## The random generator -/

/-- The return type argument of the randomizer's function templates. -/
inductive RetTy where
  | int32_t
  | int64_t
  deriving DecidableEq, Repr

/-- Width in bits of a return type. -/
def RetTy.bits : RetTy → Nat
  | .int32_t => 32
  | .int64_t => 64

/-- The class `Randomizer` of `randomizer.h`, which is not among the sources,
as a parameter: `randInt bitwidth upperBound ret` is
`Randomizer::randInt<bitwidth, upperBound, ret>()` and `randIntInteresting ret`
is `Randomizer::randIntInteresting<ret>()`, each a function of the generator
state that returns the value drawn and the next state. -/
structure Randomizer (σ : Type) where
  randInt : (bitwidth upperBound : Nat) → RetTy → σ → Int × σ
  randIntInteresting : RetTy → σ → Int × σ

/-- Modelled from the spec: the interesting-value corpus for a width, which
`randomizer.h` (not among the sources) holds: zero, -1, the minimum and the
maximum signed value of the width, and the sign-bit-only pattern. -/
def interestingCorpus (w : Nat) : List Int :=
  [0, -1, -(2 : Int) ^ (w - 1), (2 : Int) ^ (w - 1) - 1, toSigned w (2 ^ (w - 1))]

/-- Modelled from the spec: a generator for `randomizer.h` (not among the
sources) whose state is the list of raw numbers still to be delivered. With
`upperBound = 0` a draw is the raw number read as a signed `bitwidth`-bit
value; with `upperBound > 0` it is the raw number reduced below `upperBound`;
an interesting value is the member of the corpus the raw number selects. -/
def tapeRandomizer : Randomizer (List Nat) where
  randInt := fun bitwidth upperBound _ s =>
    (if upperBound = 0 then toSigned bitwidth (s.headD 0)
      else ((s.headD 0 % upperBound : Nat) : Int), s.tail)
  randIntInteresting := fun ret s =>
    ((interestingCorpus ret.bits).getD (s.headD 0 % 5) 0, s.tail)

/-! ## vectorRandomizer -/

/-- The `if constexpr` chain of `vectorRandomizer` that picks the array
alternative of `vals` for `bitwidth`. -/
def laneArray (bitwidth : Nat) : Except Fault ElemTy :=
  if bitwidth = 64 then .ok .int64_t
  else if bitwidth = 32 then .ok .int32_t
  else if bitwidth = 16 then .ok .int16_t
  else if bitwidth = 8 then .ok .int8_t
  else .error (.invalid_argument
    "vectorRandomizer: Bitwidth must be powers of 2 between 2 and 64")

/-- The conversion of a drawn value to the element type on the assignment
`arg[i] = ...`: the low bits of the value, read as a signed element. -/
def storeElem (t : ElemTy) (x : Int) : Int :=
  toSigned t.bits (x % ((2 ^ t.bits : Nat) : Int)).toNat

/-- The body shared by the paths 1 to 5: a draw below 4 decides; unless it is
zero the lane is the literal 0, otherwise it is a draw below `upperBound`. -/
def gatedDraw {σ : Type} (rz : Randomizer σ) (bitwidth upperBound : Nat) (s : σ) : Int × σ :=
  let g := rz.randInt 32 4 .int32_t s
  if g.1 != 0 then (0, g.2)
  else rz.randInt bitwidth upperBound .int64_t g.2

/-- The value assigned to `arg[i]` in one iteration of the lane loop, before
its conversion to the element type, and the generator state after it; `none`
when no branch of the `pathToTake` chain applies and `arg[i]` is left as it
is. -/
def laneValue {σ : Type} (rz : Randomizer σ) (bitwidth : Nat) (pathToTake : Int) (s : σ) :
    Option Int × σ :=
  if pathToTake = 0 then
    let d := rz.randInt bitwidth 0 .int64_t s
    (some d.1, d.2)
  else if pathToTake = 1 then
    let d := gatedDraw rz bitwidth 65 s
    (some d.1, d.2)
  else if pathToTake = 2 then
    let d := gatedDraw rz bitwidth 33 s
    (some d.1, d.2)
  else if pathToTake = 3 then
    let d := gatedDraw rz bitwidth 17 s
    (some d.1, d.2)
  else if pathToTake = 4 then
    let d := gatedDraw rz bitwidth 9 s
    (some d.1, d.2)
  else if pathToTake = 5 then
    let d := gatedDraw rz bitwidth 5 s
    (some d.1, d.2)
  else if pathToTake = 6 then
    let d := rz.randIntInteresting .int64_t s
    (some d.1, d.2)
  else (none, s)

/-- The lane loop of `vectorRandomizer`, with `remaining` iterations left, the
next one at index `i`, on the array `vals` and the generator state `s`. -/
def fillLanes {σ : Type} (rz : Randomizer σ) (bitwidth : Nat) (t : ElemTy) (pathToTake : Int) :
    (remaining : Nat) → (i : Nat) → List Int → σ → List Int × σ
  | 0, _, vals, s => (vals, s)
  | k + 1, i, vals, s =>
    let d := laneValue rz bitwidth pathToTake s
    match d.1 with
    | some x => fillLanes rz bitwidth t pathToTake k (i + 1) (vals.set i (storeElem t x)) d.2
    | none => fillLanes rz bitwidth t pathToTake k (i + 1) vals d.2

/-- The register built from `w`-bit elements, the head of the list lowest; each
element contributes its low `w` bits. -/
def packLow (w : Nat) : List Int → Nat
  | [] => 0
  | x :: rest => (x % ((2 ^ w : Nat) : Int)).toNat + 2 ^ w * packLow w rest

/-- Intrinsic `_mm512_setr_epi64`: the first argument is the lowest 64-bit element. -/
def _mm512_setr_epi64 (args : List Int) : Nat := packLow 64 args

/-- Intrinsic `_mm512_setr_epi32`: the first argument is the lowest 32-bit element. -/
def _mm512_setr_epi32 (args : List Int) : Nat := packLow 32 args

/-- Intrinsic `_mm512_set_epi16`: the last argument is the lowest 16-bit element. -/
def _mm512_set_epi16 (args : List Int) : Nat := packLow 16 args.reverse

/-- Intrinsic `_mm512_set_epi8`: the last argument is the lowest 8-bit element. -/
def _mm512_set_epi8 (args : List Int) : Nat := packLow 8 args.reverse

/-- Intrinsic `_mm256_setr_epi64x`: the first argument is the lowest 64-bit element. -/
def _mm256_setr_epi64x (args : List Int) : Nat := packLow 64 args

/-- Intrinsic `_mm256_setr_epi32`: the first argument is the lowest 32-bit element. -/
def _mm256_setr_epi32 (args : List Int) : Nat := packLow 32 args

/-- Intrinsic `_mm256_setr_epi16`: the first argument is the lowest 16-bit element. -/
def _mm256_setr_epi16 (args : List Int) : Nat := packLow 16 args

/-- Intrinsic `_mm256_setr_epi8`: the first argument is the lowest 8-bit element. -/
def _mm256_setr_epi8 (args : List Int) : Nat := packLow 8 args

/-- Intrinsic `_mm_set_epi64x`: the last argument is the lowest 64-bit element. -/
def _mm_set_epi64x (args : List Int) : Nat := packLow 64 args.reverse

/-- Intrinsic `_mm_setr_epi32`: the first argument is the lowest 32-bit element. -/
def _mm_setr_epi32 (args : List Int) : Nat := packLow 32 args

/-- Intrinsic `_mm_setr_epi16`: the first argument is the lowest 16-bit element. -/
def _mm_setr_epi16 (args : List Int) : Nat := packLow 16 args

/-- Intrinsic `_mm_setr_epi8`: the first argument is the lowest 8-bit element. -/
def _mm_setr_epi8 (args : List Int) : Nat := packLow 8 args

/-- The last part of `vectorRandomizer`: the lanes `vals` are handed to the set
intrinsic of the register width and lane width, in the argument order of the
source. `std::get<k>(vals)[i]` is `v i`. When no branch of the inner chain
applies `returnVector` is never assigned; that branch is not reachable from
`vectorRandomizer`, which has rejected such a `bitwidth` before, and is given
the value 0 here. -/
def packVector (vectorBitSize bitwidth : Nat) (vals : List Int) : Except Fault Nat :=
  let v := fun i => vals.getD i 0
  if vectorBitSize = 512 then
    if bitwidth = 64 then
      .ok (_mm512_setr_epi64
        [v 0, v 1, v 2, v 3, v 4, v 5, v 6, v 7])
    else if bitwidth = 32 then
      .ok (_mm512_setr_epi32
        [v 0, v 1, v 2, v 3, v 4, v 5, v 6, v 7, v 8, v 9, v 10, v 11, v 12, v 13, v 14,
         v 15])
    else if bitwidth = 16 then
      .ok (_mm512_set_epi16
        [v 31, v 30, v 29, v 28, v 27, v 26, v 25, v 24, v 23, v 22, v 21, v 20, v 19,
         v 18, v 17, v 16, v 15, v 14, v 13, v 12, v 11, v 10, v 9, v 8, v 7, v 6, v 5,
         v 4, v 3, v 2, v 1, v 0])
    else if bitwidth = 8 then
      .ok (_mm512_set_epi8
        [v 63, v 62, v 61, v 60, v 59, v 58, v 57, v 56, v 55, v 54, v 53, v 52, v 51,
         v 50, v 49, v 48, v 47, v 46, v 45, v 44, v 43, v 42, v 41, v 40, v 39, v 38,
         v 37, v 36, v 35, v 34, v 33, v 32, v 31, v 30, v 29, v 28, v 27, v 26, v 25,
         v 24, v 23, v 22, v 21, v 20, v 19, v 18, v 17, v 16, v 15, v 14, v 13, v 12,
         v 11, v 10, v 9, v 8, v 7, v 6, v 5, v 4, v 3, v 2, v 1, v 0])
    else .ok 0
  else if vectorBitSize = 256 then
    if bitwidth = 64 then
      .ok (_mm256_setr_epi64x
        [v 0, v 1, v 2, v 3])
    else if bitwidth = 32 then
      .ok (_mm256_setr_epi32
        [v 0, v 1, v 2, v 3, v 4, v 5, v 6, v 7])
    else if bitwidth = 16 then
      .ok (_mm256_setr_epi16
        [v 0, v 1, v 2, v 3, v 4, v 5, v 6, v 7, v 8, v 9, v 10, v 11, v 12, v 13, v 14,
         v 15])
    else if bitwidth = 8 then
      .ok (_mm256_setr_epi8
        [v 0, v 1, v 2, v 3, v 4, v 5, v 6, v 7, v 8, v 9, v 10, v 11, v 12, v 13, v 14,
         v 15, v 16, v 17, v 18, v 19, v 20, v 21, v 22, v 23, v 24, v 25, v 26, v 27,
         v 28, v 29, v 30, v 31])
    else .ok 0
  else if vectorBitSize = 128 then
    if bitwidth = 64 then
      .ok (_mm_set_epi64x
        [v 1, v 0])
    else if bitwidth = 32 then
      .ok (_mm_setr_epi32
        [v 0, v 1, v 2, v 3])
    else if bitwidth = 16 then
      .ok (_mm_setr_epi16
        [v 0, v 1, v 2, v 3, v 4, v 5, v 6, v 7])
    else if bitwidth = 8 then
      .ok (_mm_setr_epi8
        [v 0, v 1, v 2, v 3, v 4, v 5, v 6, v 7, v 8, v 9, v 10, v 11, v 12, v 13, v 14,
         v 15])
    else .ok 0
  else .error (.invalid_argument
    "vectorRandomizer: vectorwidth must be either 512, 256 or 128 bits")

/-- The function `vectorRandomizer<bitwidth, type>(input)`: the result, a
vector or a fault, and the generator state it leaves. -/
def vectorRandomizer {σ : Type} (rz : Randomizer σ) (bitwidth : Nat) (ty : VType)
    (_input : Nat) (s : σ) : Except Fault Nat × σ :=
  match bitSize ty with
  | .error e => (.error e, s)
  | .ok vectorBitSize =>
    match laneArray bitwidth with
    | .error e => (.error e, s)
    | .ok t =>
      let p := rz.randInt 32 7 .int32_t s
      let pathToTake := p.1
      let filled := fillLanes rz bitwidth t pathToTake (vectorBitSize / bitwidth) 0
        (List.replicate (vectorBitSize / t.bits) 0) p.2
      (packVector vectorBitSize bitwidth filled.1, filled.2)

/-- The values drawn for `n` consecutive lanes from the state `s` on, in the
order of the lanes, each as `laneValue` delivers it. -/
def drawnValues {σ : Type} (rz : Randomizer σ) (bitwidth : Nat) (pathToTake : Int) :
    (n : Nat) → σ → List (Option Int)
  | 0, _ => []
  | k + 1, s =>
    (laneValue rz bitwidth pathToTake s).1 ::
      drawnValues rz bitwidth pathToTake k (laneValue rz bitwidth pathToTake s).2

/-- The upper bounds of the paths 1 to 5, as the spec lists them. -/
def pathBound (p : Nat) : Nat :=
  if p = 1 then 65 else if p = 2 then 33 else if p = 3 then 17
  else if p = 4 then 9 else if p = 5 then 5 else 0

/-! ## integerRandomizer -/

/-- The function `integerRandomizer()`. -/
def integerRandomizer {σ : Type} (rz : Randomizer σ) (s : σ) : Int × σ :=
  let bitwidth := 32
  let p := rz.randInt 32 6 .int32_t s
  let pathToTake := p.1
  if pathToTake = 0 then rz.randInt bitwidth 0 .int32_t p.2
  else if pathToTake = 1 then rz.randInt bitwidth 33 .int32_t p.2
  else if pathToTake = 2 then rz.randInt bitwidth 17 .int32_t p.2
  else if pathToTake = 3 then rz.randInt bitwidth 9 .int32_t p.2
  else if pathToTake = 4 then rz.randInt bitwidth 5 .int32_t p.2
  else rz.randIntInteresting .int32_t p.2

/-! ## static_for -/

/-- The index pack of `std::make_index_sequence<n>`: 0, 1, ..., n - 1. -/
def make_index_sequence (n : Nat) : List Nat := List.range n

/-- The overload `static_for(function, std::index_sequence<S...>)`: the braced
initialiser of `unpack` evaluates its elements from left to right, so the
callable runs on each index of the pack in turn. The callable is a function of
its index and of the state it acts on. -/
def static_for_seq {σ : Type} (function : Nat → σ → σ) : List Nat → σ → σ
  | [], s => s
  | i :: rest, s => static_for_seq function rest (function i s)

/-- The overload `static_for<iterations>(function)`. -/
def static_for {σ : Type} (iterations : Nat) (function : Nat → σ → σ) (s : σ) : σ :=
  static_for_seq function (make_index_sequence iterations) s

/-- A callable that behaves as `function` and appends the index it is called
with to a log. -/
def logged {σ : Type} (function : Nat → σ → σ) : Nat → σ × List Nat → σ × List Nat :=
  fun i st => (function i st.1, st.2 ++ [i])

/-! ## vectorTypeIndex and returnVectorType -/

/-- The function `vectorTypeIndex<bitSize>()`; the template argument is an
`int`. -/
def vectorTypeIndex (bitSize : Int) : Except Fault Int :=
  if bitSize = 128 then .ok 0
  else if bitSize = 256 then .ok 1
  else if bitSize = 512 then .ok 2
  else if bitSize = 32 then .ok 3
  else .error (.invalid_argument "vectorTypeIndex must take in either 128, 256, or 512")

/-- The variant `std::variant<__m128i, __m256i, __m512i, int32_t>`, an
alternative with the bit pattern it holds. -/
inductive VectorVariant where
  | m128i (value : Nat)
  | m256i (value : Nat)
  | m512i (value : Nat)
  | int32_t (value : Nat)
  deriving DecidableEq, Repr

/-- The position of the active alternative in the variant's list of types,
what `index()` returns. -/
def VectorVariant.index : VectorVariant → Nat
  | .m128i _ => 0
  | .m256i _ => 1
  | .m512i _ => 2
  | .int32_t _ => 3

/-- The type of the active alternative. -/
def VectorVariant.type : VectorVariant → VType
  | .m128i _ => .m128i
  | .m256i _ => .m256i
  | .m512i _ => .m512i
  | .int32_t _ => .int32_t

/-- The bit pattern of the value the variant holds. -/
def VectorVariant.value : VectorVariant → Nat
  | .m128i v => v
  | .m256i v => v
  | .m512i v => v
  | .int32_t v => v

/-- Intrinsic `_mm_setzero_si128`: the 128-bit register with all bits zero. -/
def _mm_setzero_si128 : Nat := 0

/-- Intrinsic `_mm256_setzero_si256`: the 256-bit register with all bits zero. -/
def _mm256_setzero_si256 : Nat := 0

/-- Intrinsic `_mm512_setzero_epi32`: the 512-bit register with all bits zero. -/
def _mm512_setzero_epi32 : Nat := 0

/-- The function `returnVectorType<bitSize>()`. -/
def returnVectorType (bitSize : Int) : Except Fault VectorVariant :=
  if bitSize = 128 then .ok (.m128i _mm_setzero_si128)
  else if bitSize = 256 then .ok (.m256i _mm256_setzero_si256)
  else if bitSize = 512 then .ok (.m512i _mm512_setzero_epi32)
  else if bitSize = 32 then .ok (.int32_t 0)
  else .error (.invalid_argument "returnVectorType must take in either 128, 256, or 512")

/-! ## printVec and printError -/

/-- The conversion `static_cast<int64_t>(x)`. -/
def static_cast_int64 (x : Int) : Int := storeElem .int64_t x

/-- Whether the aliasing rules let an operand of type `ty` be read through a
pointer to elements of type `t`: `int8_t` is a character type, through which
any object may be read, and the `int32_t` operand is read through a pointer to
its own type. A read of a vector operand through an `int16_t`, `int32_t` or
`int64_t` pointer, or of the scalar through an `int16_t` pointer, is not a
permitted access. -/
def aliasingAllowed : ElemTy → VType → Bool
  | .int8_t, _ => true
  | .int32_t, .int32_t => true
  | _, _ => false

/-- The element `arg[i]` as `printVec` reads it from its by-value operand
through the cast pointer. Where the access is permitted it is the lane of the
operand. Otherwise the behaviour is undefined and the value is whatever the
built program delivers, which `punned` stands for. -/
def castRead (punned : ElemTy → VType → Nat → Nat → Int) (t : ElemTy) (ty : VType)
    (input i : Nat) : Int :=
  if aliasingAllowed t ty then readLane t input i else punned t ty input i

/-- The loop of `printVec`, with `remaining` iterations left, the next one at
index `i`; `out` is the text on the output stream. Each iteration writes the
element, converted to `int64_t`, in decimal, and a space. -/
def printVecLoop (punned : ElemTy → VType → Nat → Nat → Int) (t : ElemTy) (ty : VType)
    (input : Nat) : (remaining : Nat) → (i : Nat) → String → String
  | 0, _, out => out
  | k + 1, i, out =>
    printVecLoop punned t ty input k (i + 1)
      (out ++ toString (static_cast_int64 (castRead punned t ty input i)) ++ " ")

/-- The function `printVec<bitwidth, type>(input)` on the output stream with
text `out`: the result, done or a fault, and the text on the stream after
it. -/
def printVec (punned : ElemTy → VType → Nat → Nat → Int) (bitwidth : Nat) (ty : VType)
    (input : Nat) (out : String) : Except Fault Unit × String :=
  match lanePointer bitwidth with
  | .error e => (.error e, out)
  | .ok t =>
    match bitSize ty with
    | .error e => (.error e, out)
    | .ok vectorBitSize =>
      (.ok (), printVecLoop punned t ty input (vectorBitSize / bitwidth) 0 (out ++ "< ") ++ ">\n")

/-- The function `printError<bitwidthOp1, bitwidthOp2, bitwidthRet>(input1,
input2, output1, output2)` on the output stream with text `out`. -/
def printError (punned : ElemTy → VType → Nat → Nat → Int)
    (bitwidthOp1 bitwidthOp2 bitwidthRet : Nat) (typeOp1 typeOp2 typeRet : VType)
    (input1 input2 output1 output2 : Nat) (out : String) : Except Fault Unit × String :=
  let out1 := out ++ "========================\n" ++ "\nOperand 1:\n"
  match printVec punned bitwidthOp1 typeOp1 input1 out1 with
  | (.error e, o) => (.error e, o)
  | (.ok _, o1) =>
    match printVec punned bitwidthOp2 typeOp2 input2 (o1 ++ "\nOperand 2:\n") with
    | (.error e, o) => (.error e, o)
    | (.ok _, o2) =>
      match printVec punned bitwidthRet typeRet output1 (o2 ++ "\nOutput 1(src):\n") with
      | (.error e, o) => (.error e, o)
      | (.ok _, o3) =>
        match printVec punned bitwidthRet typeRet output2
            (o3 ++ "\nOutput 2(intrinsic call):\n") with
        | (.error e, o) => (.error e, o)
        | (.ok _, o4) => (.ok (), o4 ++ "\n========================\n\n")

/-- The strings of a list one after the other. -/
def concatAll : List String → String
  | [] => ""
  | s :: rest => s ++ concatAll rest

/-- The text of the dump of an operand of `n` lanes of width `w`: the
opening bracket, each lane as a signed decimal number followed by a space, in
ascending lane order, the closing bracket and a newline. -/
def vecText (w n : Nat) (input : Nat) : String :=
  "< " ++ concatAll ((List.range n).map
    (fun i => toString (toSigned w (laneBits w input i)) ++ " ")) ++ ">\n"

/-! ## Recording the draws -/

/-- A call of one of the randomizer's functions, with its template
arguments. -/
inductive Call where
  | randInt (bitwidth upperBound : Nat) (ret : RetTy)
  | randIntInteresting (ret : RetTy)
  deriving DecidableEq, Repr

/-- The generator `rz` with a record of the calls made to it: each call
delivers what `rz` delivers and is appended to the record. -/
def recording {σ : Type} (rz : Randomizer σ) : Randomizer (σ × List Call) where
  randInt := fun bitwidth upperBound ret st =>
    ((rz.randInt bitwidth upperBound ret st.1).1,
      ((rz.randInt bitwidth upperBound ret st.1).2, st.2 ++ [Call.randInt bitwidth upperBound ret]))
  randIntInteresting := fun ret st =>
    ((rz.randIntInteresting ret st.1).1,
      ((rz.randIntInteresting ret st.1).2, st.2 ++ [Call.randIntInteresting ret]))

/-- The generator state after the draws for `n` consecutive lanes from the
state `s` on. -/
def drawnState {σ : Type} (rz : Randomizer σ) (bitwidth : Nat) (pathToTake : Int) :
    (n : Nat) → σ → σ
  | 0, s => s
  | k + 1, s => drawnState rz bitwidth pathToTake k (laneValue rz bitwidth pathToTake s).2

/-! ## The distribution of a lane -/

/-- The number of values a call of the randomizer chooses from: the upper bound
of a bounded `randInt`, all `bitwidth`-bit values for an unbounded one, the
five entries of the corpus for an interesting value. -/
def Call.range : Call → Nat
  | .randInt bitwidth upperBound _ => if upperBound = 0 then 2 ^ bitwidth else upperBound
  | .randIntInteresting _ => 5

/-- The tapes that are the complete outcomes of a run, found by following the
run: `run tape` is the list of the calls the code makes when the generator
delivers the numbers of `tape`; while the code makes a call beyond the end of
the tape, the tape is extended by every value that call can deliver. -/
def outcomeTapes (run : List Nat → List Call) : (fuel : Nat) → List Nat → List (List Nat)
  | 0, _ => []
  | fuel + 1, tape =>
    match (run tape).drop tape.length with
    | [] => [tape]
    | c :: _ => ((List.range c.range).map
        (fun a => outcomeTapes run fuel (tape ++ [a]))).flatten

/-- One lane of element type `t` drawn on path `p` from the numbers of `tape`:
the value the lane holds, and the calls `laneValue` has made. -/
def laneRun (t : ElemTy) (p : Nat) (tape : List Nat) : Int × List Call :=
  (storeElem t (((laneValue (recording tapeRandomizer) t.bits (p : Int) (tape, [])).1).getD 0),
    (laneValue (recording tapeRandomizer) t.bits (p : Int) (tape, [])).2.2)

/-- The outcomes of one lane of element type `t` on path `p`, each with the
calls that lead to it. -/
def laneOutcomes (t : ElemTy) (p : Nat) : List (Int × List Call) :=
  (outcomeTapes (fun tape => (laneRun t p tape).2) 3 []).map (laneRun t p)

/-- The ranges of the calls behind each outcome of the event `E`. -/
def eventRanges (outcomes : List (Int × List Call)) (E : Int × List Call → Bool) :
    List (List Nat) :=
  (outcomes.filter E).map (fun o => o.2.map Call.range)

/-- The probability of the event `E` over a list of outcomes when every call
draws uniformly from its range, independently of the others: each outcome has
the inverse of the product of the ranges of its calls. -/
def probability (outcomes : List (Int × List Call)) (E : Int × List Call → Bool) : ℚ :=
  ((eventRanges outcomes E).map (fun r => 1 / ((r.prod : Nat) : ℚ))).sum

/-! ## Lemmas on lanes and on the comparison loop -/

theorem lanePointer_bits {bitwidth : Nat} {t : ElemTy} (h : lanePointer bitwidth = .ok t) :
    t.bits = bitwidth := by
  unfold lanePointer at h
  split_ifs at h with h1 h2 h3 h4 <;> cases h <;> simp [ElemTy.bits, *]

theorem lanePointer_ok {bitwidth : Nat}
    (hL : bitwidth = 8 ∨ bitwidth = 16 ∨ bitwidth = 32 ∨ bitwidth = 64) :
    ∃ t, lanePointer bitwidth = .ok t ∧ t.bits = bitwidth := by
  rcases hL with h | h | h | h <;> subst h
  · exact ⟨.int8_t, rfl, rfl⟩
  · exact ⟨.int16_t, rfl, rfl⟩
  · exact ⟨.int32_t, rfl, rfl⟩
  · exact ⟨.int64_t, rfl, rfl⟩

theorem ElemTy.bits_pos (t : ElemTy) : 0 < t.bits := by
  cases t <;> decide

theorem toSigned_inj {w x y : Nat} (hw : 0 < w) (h : toSigned w x = toSigned w y) :
    x % 2 ^ w = y % 2 ^ w := by
  unfold toSigned at h
  have hx : x % 2 ^ w < 2 ^ w := Nat.mod_lt _ (by positivity)
  have hy : y % 2 ^ w < 2 ^ w := Nat.mod_lt _ (by positivity)
  have hp : 2 ^ w = 2 * 2 ^ (w - 1) := by
    cases w with
    | zero => omega
    | succ n => simp [pow_succ, Nat.mul_comm]
  generalize x % 2 ^ w = a at *
  generalize y % 2 ^ w = b at *
  generalize 2 ^ (w - 1) = q at *
  generalize 2 ^ w = p at *
  split_ifs at h <;> omega

theorem readLane_eq_iff (t : ElemTy) (a b i : Nat) :
    readLane t a i = readLane t b i ↔ laneBits t.bits a i = laneBits t.bits b i := by
  constructor
  · intro h
    have := toSigned_inj t.bits_pos h
    simpa [laneBits] using this
  · intro h
    simp [readLane, h]

theorem areEqualLoop_eq_true (t : ElemTy) (a b : Nat) (k i : Nat) :
    areEqualLoop t a b k i = true ↔ ∀ j, i ≤ j → j < i + k → readLane t a j = readLane t b j := by
  induction k generalizing i with
  | zero =>
    simp only [areEqualLoop, true_iff]
    intro j h1 h2
    omega
  | succ k ih =>
    unfold areEqualLoop
    by_cases h : readLane t a i = readLane t b i
    · simp only [h, bne_self_eq_false, Bool.false_eq_true, if_false, ih]
      constructor
      · intro hall j h1 h2
        rcases Nat.eq_or_lt_of_le h1 with e | l
        · subst e; exact h
        · exact hall j l (by omega)
      · intro hall j h1 h2
        exact hall j (by omega) (by omega)
    · have hne : (readLane t a i != readLane t b i) = true := by simpa using h
      simp only [hne, if_true, Bool.false_eq_true, false_iff]
      intro hall
      exact h (hall i (Nat.le_refl i) (by omega))

theorem areEqual_supported {bitwidth : Nat} {ty : VType} {t : ElemTy} {R : Nat}
    (ht : lanePointer bitwidth = .ok t) (hR : bitSize ty = .ok R) (a b : Nat) :
    areEqual bitwidth ty a b = .ok (areEqualLoop t a b (R / bitwidth) 0) := by
  simp [areEqual, ht, hR]

theorem laneBits_testBit (w x i j : Nat) (hj : j < w) :
    (laneBits w x i).testBit j = x.testBit (w * i + j) := by
  unfold laneBits
  rw [Nat.testBit_mod_two_pow, ← Nat.shiftRight_eq_div_pow, Nat.testBit_shiftRight]
  simp [hj]

theorem flipBit_testBit (v k : Nat) : (flipBit v k).testBit k = !v.testBit k := by
  unfold flipBit
  rw [Nat.testBit_xor, Nat.testBit_two_pow_self]
  cases v.testBit k <;> rfl

theorem laneBits_flipBit_ne (w v k : Nat) (hw : 0 < w) :
    laneBits w v (k / w) ≠ laneBits w (flipBit v k) (k / w) := by
  intro h
  have h1 := congrArg (fun x => x.testBit (k % w)) h
  simp only at h1
  rw [laneBits_testBit w v _ _ (Nat.mod_lt k hw),
    laneBits_testBit w (flipBit v k) _ _ (Nat.mod_lt k hw), Nat.div_add_mod,
    flipBit_testBit] at h1
  cases hb : v.testBit k <;> simp [hb] at h1

theorem static_for_seq_logged {σ : Type} (f : Nat → σ → σ) (S : List Nat) (s : σ)
    (log : List Nat) :
    static_for_seq (logged f) S (s, log) = (static_for_seq f S s, log ++ S) := by
  induction S generalizing s log with
  | nil => simp [static_for_seq]
  | cons i rest ih => simp [static_for_seq, logged, ih]

theorem toBits_lt (w : Nat) (x : Int) : (x % ((2 ^ w : Nat) : Int)).toNat < 2 ^ w := by
  have hp : (0 : Int) < ((2 ^ w : Nat) : Int) := by positivity
  have h1 := Int.emod_nonneg x (ne_of_gt hp)
  have h2 := Int.emod_lt_of_pos x hp
  omega

theorem toSigned_emod (w n : Nat) :
    toSigned w n % ((2 ^ w : Nat) : Int) = ((n % 2 ^ w : Nat) : Int) := by
  have hlt : n % 2 ^ w < 2 ^ w := Nat.mod_lt _ (by positivity)
  have hbase : ((n % 2 ^ w : Nat) : Int) % ((2 ^ w : Nat) : Int) = ((n % 2 ^ w : Nat) : Int) :=
    Int.emod_eq_of_lt (by positivity) (by exact_mod_cast hlt)
  unfold toSigned
  split_ifs
  · exact hbase
  · rw [Int.emod_sub_cancel]; exact hbase

theorem storeElem_idem (t : ElemTy) (x : Int) : storeElem t (storeElem t x) = storeElem t x := by
  have hlt := toBits_lt t.bits x
  unfold storeElem
  rw [toSigned_emod, Nat.mod_eq_of_lt hlt, Int.toNat_ofNat]

theorem laneBits_packLow (w : Nat) (xs : List Int) (i : Nat) :
    laneBits w (packLow w xs) i = (xs.getD i 0 % ((2 ^ w : Nat) : Int)).toNat := by
  induction xs generalizing i with
  | nil => simp [packLow, laneBits]
  | cons x rest ih =>
    have hlt := toBits_lt w x
    cases i with
    | zero =>
      simp only [packLow, laneBits, Nat.mul_zero, pow_zero, Nat.div_one, List.getD_cons_zero]
      rw [Nat.add_mul_mod_self_left, Nat.mod_eq_of_lt hlt]
    | succ j =>
      have ih2 := ih j
      simp only [laneBits] at ih2 ⊢
      simp only [packLow, List.getD_cons_succ]
      rw [← ih2, Nat.mul_succ, Nat.add_comm (w * j) w, pow_add, ← Nat.div_div_eq_div_mul,
        Nat.add_mul_div_left _ _ (by positivity), Nat.div_eq_of_lt hlt, Nat.zero_add]

theorem getD_set (vals : List Int) (i j : Nat) (a : Int) :
    (vals.set i a).getD j 0 = if i = j ∧ i < vals.length then a else vals.getD j 0 := by
  simp only [List.getD_eq_getElem?_getD, List.getElem?_set]
  by_cases h : i = j
  · subst h
    by_cases h2 : i < vals.length
    · simp [h2]
    · simp [h2, List.getElem?_eq_none (Nat.le_of_not_lt h2)]
  · simp [h]

theorem fillLanes_getD {σ : Type} (rz : Randomizer σ) (bitwidth : Nat) (t : ElemTy)
    (pathToTake : Int) (k : Nat) : ∀ (i : Nat) (vals : List Int) (s : σ) (j : Nat),
    (fillLanes rz bitwidth t pathToTake k i vals s).1.getD j 0 =
      if i ≤ j ∧ j < i + k ∧ j < vals.length then
        match (drawnValues rz bitwidth pathToTake k s).getD (j - i) none with
        | some x => storeElem t x
        | none => vals.getD j 0
      else vals.getD j 0 := by
  induction k with
  | zero =>
    intro i vals s j
    have : ¬ (i ≤ j ∧ j < i + 0 ∧ j < vals.length) := by omega
    rw [if_neg this]
    rfl
  | succ k ih =>
    intro i vals s j
    unfold fillLanes drawnValues
    cases hd : (laneValue rz bitwidth pathToTake s).1 with
    | none =>
      simp only [hd]
      rw [ih]
      by_cases hij : i = j
      · subst hij
        have h1 : ¬ (i + 1 ≤ i ∧ i < i + 1 + k ∧ i < vals.length) := by omega
        simp only [h1, if_false, Nat.sub_self, List.getD_cons_zero]
        split_ifs <;> rfl
      · by_cases hc : i + 1 ≤ j ∧ j < i + 1 + k ∧ j < vals.length
        · have hc2 : i ≤ j ∧ j < i + (k + 1) ∧ j < vals.length := by omega
          have hsub : j - i = (j - (i + 1)) + 1 := by omega
          simp only [hc, hc2, and_self, if_true]
          rw [hsub, List.getD_cons_succ]
        · have hc2 : ¬ (i ≤ j ∧ j < i + (k + 1) ∧ j < vals.length) := by omega
          simp only [hc, hc2, if_false]
    | some x =>
      simp only [hd]
      rw [ih]
      simp only [List.length_set, getD_set]
      by_cases hij : i = j
      · subst hij
        have h1 : ¬ (i + 1 ≤ i ∧ i < i + 1 + k ∧ i < vals.length) := by omega
        simp only [h1, if_false, Nat.sub_self, List.getD_cons_zero, true_and]
        by_cases hl : i < vals.length
        · have h2 : i ≤ i ∧ i < i + (k + 1) ∧ i < vals.length := by omega
          simp only [hl, h2, and_self, if_true]
        · have h2 : ¬ (i ≤ i ∧ i < i + (k + 1) ∧ i < vals.length) := by omega
          simp only [hl, and_false, if_false]
      · have hf : ¬ (i = j ∧ i < vals.length) := by omega
        by_cases hc : i + 1 ≤ j ∧ j < i + 1 + k ∧ j < vals.length
        · have hc2 : i ≤ j ∧ j < i + (k + 1) ∧ j < vals.length := by omega
          have hsub : j - i = (j - (i + 1)) + 1 := by omega
          simp only [hc, hc2, hf, and_self, if_true, if_false]
          rw [hsub, List.getD_cons_succ]
        · have hc2 : ¬ (i ≤ j ∧ j < i + (k + 1) ∧ j < vals.length) := by omega
          simp only [hc, hc2, hf, if_false]

theorem storeElem_zero (t : ElemTy) : storeElem t 0 = 0 := by
  cases t <;> decide

theorem fillLanes_replicate {σ : Type} (rz : Randomizer σ) (bitwidth : Nat) (t : ElemTy)
    (pathToTake : Int) (n : Nat) (s : σ) (j : Nat) (hj : j < n) :
    (fillLanes rz bitwidth t pathToTake n 0 (List.replicate n 0) s).1.getD j 0 =
      storeElem t (((drawnValues rz bitwidth pathToTake n s).getD j none).getD 0) := by
  rw [fillLanes_getD]
  have hc : 0 ≤ j ∧ j < 0 + n ∧ j < (List.replicate n (0 : Int)).length := by
    simp [hj]
  rw [if_pos hc, Nat.sub_zero]
  cases (drawnValues rz bitwidth pathToTake n s).getD j none with
  | none =>
    simp [storeElem_zero, List.getD_eq_getElem?_getD, List.getElem?_replicate, hj]
  | some x => simp

theorem packVector_supported (R L : Nat) (vals : List Int)
    (hty : R = 128 ∨ R = 256 ∨ R = 512) (hL : L = 8 ∨ L = 16 ∨ L = 32 ∨ L = 64) :
    packVector R L vals = .ok (packLow L ((List.range (R / L)).map (fun i => vals.getD i 0))) := by
  rcases hty with h | h | h <;> rcases hL with l | l | l | l <;> subst h <;> subst l <;> rfl

theorem laneArray_ok {bitwidth : Nat}
    (hL : bitwidth = 8 ∨ bitwidth = 16 ∨ bitwidth = 32 ∨ bitwidth = 64) :
    ∃ t, laneArray bitwidth = .ok t ∧ t.bits = bitwidth := by
  rcases hL with h | h | h | h <;> subst h
  · exact ⟨.int8_t, rfl, rfl⟩
  · exact ⟨.int16_t, rfl, rfl⟩
  · exact ⟨.int32_t, rfl, rfl⟩
  · exact ⟨.int64_t, rfl, rfl⟩

theorem getD_map_range (n : Nat) (f : Nat → Int) (i : Nat) (hi : i < n) :
    ((List.range n).map f).getD i 0 = f i := by
  simp [List.getD_eq_getElem?_getD, List.getElem?_map, List.getElem?_range hi]

/-- The shape of a successful call: the selector draw, the lane loop, the
packing. -/
theorem vectorRandomizer_supported {σ : Type} (rz : Randomizer σ) (ty : VType) (R L : Nat)
    (t : ElemTy) (input : Nat) (s : σ) (hR : bitSize ty = .ok R)
    (hty : R = 128 ∨ R = 256 ∨ R = 512) (hL : L = 8 ∨ L = 16 ∨ L = 32 ∨ L = 64)
    (ht : laneArray L = .ok t) (hbits : t.bits = L) :
    vectorRandomizer rz L ty input s =
      (.ok (packLow L ((List.range (R / L)).map (fun i =>
          (fillLanes rz L t (rz.randInt 32 7 .int32_t s).1 (R / L) 0
            (List.replicate (R / L) 0) (rz.randInt 32 7 .int32_t s).2).1.getD i 0))),
        (fillLanes rz L t (rz.randInt 32 7 .int32_t s).1 (R / L) 0
            (List.replicate (R / L) 0) (rz.randInt 32 7 .int32_t s).2).2) := by
  simp only [vectorRandomizer, hR, ht, hbits, packVector_supported R L _ hty hL]

theorem storeElem_emod (t : ElemTy) (x : Int) :
    storeElem t x % ((2 ^ t.bits : Nat) : Int) = x % ((2 ^ t.bits : Nat) : Int) := by
  have hp : (0 : Int) < ((2 ^ t.bits : Nat) : Int) := by positivity
  unfold storeElem
  rw [toSigned_emod, Nat.mod_eq_of_lt (toBits_lt t.bits x),
    Int.toNat_of_nonneg (Int.emod_nonneg x (ne_of_gt hp))]

/-- Every lane of the vector a supported call returns holds the low bits of
the value drawn for it. -/
theorem vectorRandomizer_laneBits {σ : Type} (rz : Randomizer σ) (ty : VType) (R L : Nat)
    (input : Nat) (s : σ) (hR : bitSize ty = .ok R)
    (hty : R = 128 ∨ R = 256 ∨ R = 512) (hL : L = 8 ∨ L = 16 ∨ L = 32 ∨ L = 64) :
    ∃ v, (vectorRandomizer rz L ty input s).1 = .ok v ∧
      ∀ i, i < R / L →
        laneBits L v i = ((((drawnValues rz L (rz.randInt 32 7 .int32_t s).1 (R / L)
          (rz.randInt 32 7 .int32_t s).2).getD i none).getD 0) % ((2 ^ L : Nat) : Int)).toNat := by
  obtain ⟨t, ht, hbits⟩ := laneArray_ok hL
  refine ⟨_, by rw [vectorRandomizer_supported rz ty R L t input s hR hty hL ht hbits], ?_⟩
  intro i hi
  subst hbits
  rw [laneBits_packLow, getD_map_range _ _ _ hi, fillLanes_replicate _ _ _ _ _ _ _ hi,
    storeElem_emod]

theorem drawnValues_getD {σ : Type} (rz : Randomizer σ) (bitwidth : Nat) (pathToTake : Int)
    (n : Nat) : ∀ (s : σ) (i : Nat), i < n →
      ∃ s0, (drawnValues rz bitwidth pathToTake n s).getD i none =
        (laneValue rz bitwidth pathToTake s0).1 := by
  induction n with
  | zero => intro s i hi; omega
  | succ n ih =>
    intro s i hi
    cases i with
    | zero => exact ⟨s, by simp [drawnValues]⟩
    | succ j =>
      obtain ⟨s0, h0⟩ := ih (laneValue rz bitwidth pathToTake s).2 j (by omega)
      exact ⟨s0, by simpa [drawnValues] using h0⟩

theorem laneValue_gated {σ : Type} (rz : Randomizer σ) (bitwidth p : Nat) (s : σ)
    (hp : p = 1 ∨ p = 2 ∨ p = 3 ∨ p = 4 ∨ p = 5) :
    (laneValue rz bitwidth (p : Int) s).1 = some (gatedDraw rz bitwidth (pathBound p) s).1 := by
  rcases hp with h | h | h | h | h <;> subst h <;> simp [laneValue, pathBound]

theorem gatedDraw_range {σ : Type} (rz : Randomizer σ) (bitwidth B : Nat) (s : σ) (hB : 0 < B)
    (hrange : ∀ (w B : Nat) (ret : RetTy) (s : σ), 0 < B →
      0 ≤ (rz.randInt w B ret s).1 ∧ (rz.randInt w B ret s).1 < (B : Int)) :
    0 ≤ (gatedDraw rz bitwidth B s).1 ∧ (gatedDraw rz bitwidth B s).1 < (B : Int) := by
  unfold gatedDraw
  simp only []
  split_ifs
  · exact ⟨le_refl _, Int.natCast_pos.mpr hB⟩
  · exact hrange _ _ _ _ hB

theorem toSigned_of_lt (w : Nat) (x : Int) (hw : 0 < w) (h0 : 0 ≤ x)
    (h1 : x < ((2 ^ (w - 1) : Nat) : Int)) :
    toSigned w (x % ((2 ^ w : Nat) : Int)).toNat = x := by
  have hp : 2 ^ w = 2 * 2 ^ (w - 1) := by
    cases w with
    | zero => omega
    | succ n => simp [pow_succ, Nat.mul_comm]
  obtain ⟨n, rfl⟩ := Int.eq_ofNat_of_zero_le h0
  have hn : n < 2 ^ (w - 1) := by exact_mod_cast h1
  have hn2 : n < 2 ^ w := by omega
  have hx : (n : Int) % ((2 ^ w : Nat) : Int) = (n : Int) :=
    Int.emod_eq_of_lt h0 (by exact_mod_cast hn2)
  rw [hx, Int.toNat_ofNat]
  unfold toSigned
  rw [Nat.mod_eq_of_lt hn2, if_pos hn]

theorem toSigned_small (L : Nat) (x : Int) (hL : L = 8 ∨ L = 16 ∨ L = 32 ∨ L = 64)
    (h0 : 0 ≤ x) (h1 : x < 128) :
    toSigned L (x % ((2 ^ L : Nat) : Int)).toNat = x := by
  have hw : 0 < L := by omega
  have hbig : (128 : Int) ≤ ((2 ^ (L - 1) : Nat) : Int) := by
    rcases hL with h | h | h | h <;> subst h <;> norm_num
  exact toSigned_of_lt L x hw h0 (by omega)

theorem pathBound_le (p : Nat) (hp : p = 1 ∨ p = 2 ∨ p = 3 ∨ p = 4 ∨ p = 5) :
    0 < pathBound p ∧ pathBound p ≤ 65 := by
  rcases hp with h | h | h | h | h <;> subst h <;> decide

theorem tapeRandomizer_range (w B : Nat) (ret : RetTy) (s : List Nat) (hB : 0 < B) :
    0 ≤ (tapeRandomizer.randInt w B ret s).1 ∧ (tapeRandomizer.randInt w B ret s).1 < (B : Int) := by
  have hne : B ≠ 0 := by omega
  simp only [tapeRandomizer, hne, if_false]
  exact ⟨by positivity, by exact_mod_cast Nat.mod_lt _ hB⟩

theorem laneValue_six {σ : Type} (rz : Randomizer σ) (bitwidth : Nat) (s : σ) :
    (laneValue rz bitwidth 6 s).1 = some (rz.randIntInteresting .int64_t s).1 := by
  simp [laneValue]

theorem corpus64_narrow (L : Nat) (x : Int) (hL : L = 8 ∨ L = 16 ∨ L = 32)
    (hx : x ∈ interestingCorpus 64) :
    toSigned L (x % ((2 ^ L : Nat) : Int)).toNat = 0 ∨
      toSigned L (x % ((2 ^ L : Nat) : Int)).toNat = -1 := by
  have h8 : ∀ y ∈ interestingCorpus 64, toSigned 8 (y % ((2 ^ 8 : Nat) : Int)).toNat = 0 ∨
      toSigned 8 (y % ((2 ^ 8 : Nat) : Int)).toNat = -1 := by decide
  have h16 : ∀ y ∈ interestingCorpus 64, toSigned 16 (y % ((2 ^ 16 : Nat) : Int)).toNat = 0 ∨
      toSigned 16 (y % ((2 ^ 16 : Nat) : Int)).toNat = -1 := by decide
  have h32 : ∀ y ∈ interestingCorpus 64, toSigned 32 (y % ((2 ^ 32 : Nat) : Int)).toNat = 0 ∨
      toSigned 32 (y % ((2 ^ 32 : Nat) : Int)).toNat = -1 := by decide
  rcases hL with h | h | h <;> subst h
  · exact h8 x hx
  · exact h16 x hx
  · exact h32 x hx

theorem corpus_min_mem (L : Nat) : -(2 : Int) ^ (L - 1) ∈ interestingCorpus L := by
  simp [interestingCorpus]

theorem tapeRandomizer_interesting_mem (ret : RetTy) (s : List Nat) :
    (tapeRandomizer.randIntInteresting ret s).1 ∈ interestingCorpus ret.bits := by
  have h : s.headD 0 % 5 < 5 := Nat.mod_lt _ (by decide)
  simp only [tapeRandomizer]
  generalize s.headD 0 % 5 = n at h
  interval_cases n <;> simp [interestingCorpus]

theorem laneArray_error {bitwidth : Nat}
    (hL : ¬ (bitwidth = 8 ∨ bitwidth = 16 ∨ bitwidth = 32 ∨ bitwidth = 64)) :
    ∃ e, laneArray bitwidth = .error e := by
  simp only [not_or] at hL
  obtain ⟨h8, h16, h32, h64⟩ := hL
  simp [laneArray, h8, h16, h32, h64]

theorem packVector_scalar (bitwidth : Nat) (vals : List Int) :
    ∃ e, packVector 32 bitwidth vals = .error e := by
  simp [packVector]

theorem toSigned_range (w x : Nat) (hw : 0 < w) :
    -((2 ^ (w - 1) : Nat) : Int) ≤ toSigned w x ∧ toSigned w x < ((2 ^ (w - 1) : Nat) : Int) := by
  have hx : x % 2 ^ w < 2 ^ w := Nat.mod_lt _ (by positivity)
  have hp : 2 ^ w = 2 * 2 ^ (w - 1) := by
    cases w with
    | zero => omega
    | succ n => simp [pow_succ, Nat.mul_comm]
  unfold toSigned
  generalize x % 2 ^ w = a at *
  generalize 2 ^ (w - 1) = q at *
  generalize 2 ^ w = p at *
  split_ifs <;> omega

theorem static_cast_int64_of_range (y : Int) (h0 : -(2 : Int) ^ 63 ≤ y) (h1 : y < (2 : Int) ^ 63) :
    static_cast_int64 y = y := by
  unfold static_cast_int64 storeElem toSigned ElemTy.bits
  norm_num at h0 h1 ⊢
  split_ifs <;> omega

theorem static_cast_readLane (t : ElemTy) (v i : Nat) :
    static_cast_int64 (readLane t v i) = readLane t v i := by
  have h := toSigned_range t.bits (laneBits t.bits v i) t.bits_pos
  apply static_cast_int64_of_range
  · cases t <;> simp only [ElemTy.bits, readLane] at h ⊢ <;> norm_num at h ⊢ <;> omega
  · cases t <;> simp only [ElemTy.bits, readLane] at h ⊢ <;> norm_num at h ⊢ <;> omega

theorem printVecLoop_eq (punned : ElemTy → VType → Nat → Nat → Int) (t : ElemTy) (ty : VType)
    (input : Nat) (k : Nat) : ∀ (i : Nat) (out : String),
    printVecLoop punned t ty input k i out =
      out ++ concatAll ((List.range k).map
        (fun j => toString (static_cast_int64 (castRead punned t ty input (i + j))) ++ " ")) := by
  induction k with
  | zero => intro i out; simp [printVecLoop, concatAll]
  | succ k ih =>
    intro i out
    unfold printVecLoop
    rw [ih, List.range_succ_eq_map]
    simp only [List.map_cons, List.map_map, concatAll, Nat.add_zero, String.append_assoc]
    congr 4
    apply List.map_congr_left
    intro j _
    simp only [Function.comp, Nat.succ_eq_add_one]
    rw [Nat.add_right_comm, Nat.add_assoc]

/-- The text of a dump does not depend on what is on the stream before it. -/
theorem printVec_append (punned : ElemTy → VType → Nat → Nat → Int) (L R : Nat) (ty : VType)
    (v : Nat) (out : String)
    (hR : bitSize ty = .ok R) (hL : L = 8 ∨ L = 16 ∨ L = 32 ∨ L = 64) :
    printVec punned L ty v out = (.ok (), out ++ (printVec punned L ty v "").2) := by
  obtain ⟨t, ht, -⟩ := lanePointer_ok hL
  simp only [printVec, ht, hR, printVecLoop_eq, String.append_assoc, String.empty_append]

/-- Where the cast read is a permitted access, the dump is the text of the
lanes of the operand. -/
theorem printVec_permitted (punned : ElemTy → VType → Nat → Nat → Int) (L R : Nat) (ty : VType)
    (t : ElemTy) (v : Nat) (out : String)
    (hR : bitSize ty = .ok R) (ht : lanePointer L = .ok t) (hal : aliasingAllowed t ty = true) :
    printVec punned L ty v out = (.ok (), out ++ vecText L (R / L) v) := by
  have hbits := lanePointer_bits ht
  subst hbits
  simp only [printVec, ht, hR, printVecLoop_eq, vecText, castRead, hal, if_true,
    static_cast_readLane, Nat.zero_add, String.append_assoc]
  simp only [readLane]

theorem recording_randInt_log {σ : Type} (rz : Randomizer σ) (bw ub : Nat) (ret : RetTy)
    (st : σ × List Call) :
    ((recording rz).randInt bw ub ret st).2.2 = st.2 ++ [Call.randInt bw ub ret] := rfl

theorem recording_interesting_log {σ : Type} (rz : Randomizer σ) (ret : RetTy)
    (st : σ × List Call) :
    ((recording rz).randIntInteresting ret st).2.2 = st.2 ++ [Call.randIntInteresting ret] := rfl

theorem gatedDraw_log {σ : Type} (rz : Randomizer σ) (bw ub : Nat)
    (st : σ × List Call) :
    ∃ ext, (gatedDraw (recording rz) bw ub st).2.2 = st.2 ++ ext ∧
      Call.randInt 32 7 .int32_t ∉ ext := by
  unfold gatedDraw
  simp only []
  split_ifs
  · exact ⟨[Call.randInt 32 4 .int32_t], rfl, by simp⟩
  · refine ⟨[Call.randInt 32 4 .int32_t, Call.randInt bw ub .int64_t], ?_, ?_⟩
    · rw [recording_randInt_log, recording_randInt_log, List.append_assoc]
      rfl
    · simp

theorem laneValue_log {σ : Type} (rz : Randomizer σ) (bw : Nat) (p : Int)
    (st : σ × List Call) :
    ∃ ext, (laneValue (recording rz) bw p st).2.2 = st.2 ++ ext ∧
      Call.randInt 32 7 .int32_t ∉ ext := by
  unfold laneValue
  split_ifs
  · exact ⟨[Call.randInt bw 0 .int64_t], rfl, by simp⟩
  · exact gatedDraw_log rz bw 65 st
  · exact gatedDraw_log rz bw 33 st
  · exact gatedDraw_log rz bw 17 st
  · exact gatedDraw_log rz bw 9 st
  · exact gatedDraw_log rz bw 5 st
  · exact ⟨[Call.randIntInteresting .int64_t], rfl, by simp⟩
  · exact ⟨[], by simp, by simp⟩

theorem fillLanes_state {σ : Type} (rz : Randomizer σ) (bw : Nat) (t : ElemTy) (p : Int)
    (k : Nat) : ∀ (i : Nat) (vals : List Int) (s : σ),
    (fillLanes rz bw t p k i vals s).2 = drawnState rz bw p k s := by
  induction k with
  | zero => intro i vals s; rfl
  | succ k ih =>
    intro i vals s
    unfold fillLanes drawnState
    cases hd : (laneValue rz bw p s).1 with
    | none => simp only [hd]; rw [ih]
    | some x => simp only [hd]; rw [ih]

theorem drawnState_log {σ : Type} (rz : Randomizer σ) (bw : Nat) (p : Int) (k : Nat) :
    ∀ (st : σ × List Call),
    ∃ ext, (drawnState (recording rz) bw p k st).2 = st.2 ++ ext ∧
      Call.randInt 32 7 .int32_t ∉ ext := by
  induction k with
  | zero => intro st; exact ⟨[], by simp [drawnState], by simp⟩
  | succ k ih =>
    intro st
    obtain ⟨e1, h1, n1⟩ := laneValue_log rz bw p st
    obtain ⟨e2, h2, n2⟩ := ih (laneValue (recording rz) bw p st).2
    refine ⟨e1 ++ e2, ?_, ?_⟩
    · unfold drawnState
      rw [h2, h1, List.append_assoc]
    · simp [n1, n2]

theorem laneValue_isSome {σ : Type} (rz : Randomizer σ) (bw : Nat) (p : Int) (s : σ)
    (h0 : 0 ≤ p) (h6 : p ≤ 6) : ∃ x, (laneValue rz bw p s).1 = some x := by
  have hp : p = 0 ∨ p = 1 ∨ p = 2 ∨ p = 3 ∨ p = 4 ∨ p = 5 ∨ p = 6 := by omega
  rcases hp with h | h | h | h | h | h | h <;> subst h <;> simp [laneValue]

theorem vectorRandomizer_state {σ : Type} (rz : Randomizer σ) (ty : VType) (R L : Nat)
    (input : Nat) (s : σ) (hR : bitSize ty = .ok R)
    (hL : L = 8 ∨ L = 16 ∨ L = 32 ∨ L = 64) :
    (vectorRandomizer rz L ty input s).2 =
      drawnState rz L (rz.randInt 32 7 .int32_t s).1 (R / L) (rz.randInt 32 7 .int32_t s).2 := by
  obtain ⟨t, ht, -⟩ := laneArray_ok hL
  simp only [vectorRandomizer, hR, ht, fillLanes_state]

theorem laneBits_testBit_full (w x i j : Nat) :
    (laneBits w x i).testBit j = (decide (j < w) && x.testBit (w * i + j)) := by
  unfold laneBits
  rw [Nat.testBit_mod_two_pow, ← Nat.shiftRight_eq_div_pow, Nat.testBit_shiftRight]

theorem lanes_eq_iff_mod (w n a b : Nat) (hw : 0 < w) :
    (∀ i, i < n → laneBits w a i = laneBits w b i) ↔ a % 2 ^ (w * n) = b % 2 ^ (w * n) := by
  constructor
  · intro h
    apply Nat.eq_of_testBit_eq
    intro j
    rw [Nat.testBit_mod_two_pow, Nat.testBit_mod_two_pow]
    by_cases hj : j < w * n
    · have hi : j / w < n := Nat.div_lt_of_lt_mul hj
      have hm : j % w < w := Nat.mod_lt j hw
      have h1 := congrArg (fun x => x.testBit (j % w)) (h (j / w) hi)
      simp only [laneBits_testBit_full, hm, decide_True, Bool.true_and, Nat.div_add_mod] at h1
      simp [hj, h1]
    · simp [hj]
  · intro h i hi
    apply Nat.eq_of_testBit_eq
    intro j
    rw [laneBits_testBit_full, laneBits_testBit_full]
    by_cases hj : j < w
    · have hlt : w * i + j < w * n := by
        calc w * i + j < w * i + w := by omega
          _ = w * (i + 1) := by rw [Nat.mul_succ]
          _ ≤ w * n := Nat.mul_le_mul_left w hi
      have h1 := congrArg (fun x => x.testBit (w * i + j)) h
      simp only [Nat.testBit_mod_two_pow, hlt, decide_True, Bool.true_and] at h1
      simp [hj, h1]
    · simp [hj]

theorem areEqual_iff_mod (ty : VType) (R L a b : Nat) (hR : bitSize ty = .ok R)
    (hL : L = 8 ∨ L = 16 ∨ L = 32 ∨ L = 64) :
    areEqual L ty a b = .ok (decide (a % 2 ^ (L * (R / L)) = b % 2 ^ (L * (R / L)))) := by
  obtain ⟨t, ht, hbits⟩ := lanePointer_ok hL
  rw [areEqual_supported ht hR]
  congr 1
  have hiff : areEqualLoop t a b (R / L) 0 = true ↔
      a % 2 ^ (L * (R / L)) = b % 2 ^ (L * (R / L)) := by
    rw [areEqualLoop_eq_true, ← lanes_eq_iff_mod L (R / L) a b (by omega)]
    constructor
    · intro h i hi
      have := (readLane_eq_iff t a b i).1 (h i (Nat.zero_le i) (by omega))
      simpa [hbits] using this
    · intro h j _ hj
      apply (readLane_eq_iff t a b j).2
      rw [hbits]
      exact h j (by omega)
  cases hloop : areEqualLoop t a b (R / L) 0 with
  | true => simp [hiff.1 hloop]
  | false =>
    have : ¬ (a % 2 ^ (L * (R / L)) = b % 2 ^ (L * (R / L))) := by
      intro h
      rw [hiff.2 h] at hloop
      cases hloop
    simp [this]

theorem lane_cover (R L : Nat) (hty : R = 128 ∨ R = 256 ∨ R = 512 ∨ R = 32)
    (hL : L = 8 ∨ L = 16 ∨ L = 32) : L * (R / L) = R := by
  rcases hty with h | h | h | h <;> rcases hL with l | l | l <;> subst h <;> subst l <;> rfl

theorem lane_cover64 (R : Nat) (hty : R = 128 ∨ R = 256 ∨ R = 512) : 64 * (R / 64) = R := by
  rcases hty with h | h | h <;> subst h <;> rfl

theorem lane_eventRanges (t : ElemTy) (p : Nat) (hp : p = 1 ∨ p = 2 ∨ p = 3 ∨ p = 4 ∨ p = 5) :
    eventRanges (laneOutcomes t p) (fun _ => true) =
        List.replicate (pathBound p) [4, pathBound p] ++ List.replicate 3 [4] ∧
      eventRanges (laneOutcomes t p) (fun o => decide (o.1 = 0)) =
        [4, pathBound p] :: List.replicate 3 [4] ∧
      eventRanges (laneOutcomes t p) (fun o => decide (o.2.length = 1)) =
        List.replicate 3 [4] := by
  rcases hp with h | h | h | h | h <;> subst h <;> cases t <;> decide

/-! ## The claims -/

/-- C1: for an operand type of bit size R (in particular R in 128, 256, 512), a
lane width L in 8, 16, 32, 64 and any two operands a and b, `areEqual<L>(a, b)`
returns a boolean, and it is true if and only if for every lane index i below
R / L the i-th L-bit lane of a equals the i-th L-bit lane of b. -/
theorem areEqual_true_iff_lanes (ty : VType) (R L a b : Nat)
    (hR : bitSize ty = .ok R)
    (hL : L = 8 ∨ L = 16 ∨ L = 32 ∨ L = 64) :
    ∃ r, areEqual L ty a b = .ok r ∧
      (r = true ↔ ∀ i, i < R / L → laneBits L a i = laneBits L b i) := by
  obtain ⟨t, ht, hbits⟩ := lanePointer_ok hL
  refine ⟨_, areEqual_supported ht hR a b, ?_⟩
  rw [areEqualLoop_eq_true]
  constructor
  · intro h i hi
    have := (readLane_eq_iff t a b i).1 (h i (Nat.zero_le i) (by omega))
    simpa [hbits] using this
  · intro h j _ hj
    apply (readLane_eq_iff t a b j).2
    rw [hbits]
    exact h j (by omega)

/-- Witness of C1 at a 128-bit register with 32-bit lanes. -/
theorem areEqual_true_iff_lanes_witness :
    ∃ r, areEqual 32 .m128i 7 (7 + 2 ^ 96) = .ok r ∧
      (r = true ↔ ∀ i, i < 128 / 32 → laneBits 32 7 i = laneBits 32 (7 + 2 ^ 96) i) :=
  areEqual_true_iff_lanes .m128i 128 32 7 (7 + 2 ^ 96) rfl (Or.inr (Or.inr (Or.inl rfl)))

/-- C3: for a vector value v of register width 128, 256 or 512 and a lane width
L in 8, 16, 32, 64, `areEqual<L>(v, v)` returns true. -/
theorem areEqual_refl (ty : VType) (L v : Nat)
    (hty : ty = .m128i ∨ ty = .m256i ∨ ty = .m512i)
    (hL : L = 8 ∨ L = 16 ∨ L = 32 ∨ L = 64) :
    areEqual L ty v v = .ok true := by
  obtain ⟨t, ht, -⟩ := lanePointer_ok hL
  have hR : ∃ R, bitSize ty = .ok R := by
    rcases hty with h | h | h <;> subst h <;> exact ⟨_, rfl⟩
  obtain ⟨R, hR⟩ := hR
  rw [areEqual_supported ht hR]
  congr 1
  rw [areEqualLoop_eq_true]
  intro j _ _
  rfl

/-- Witness of C3 at a 256-bit register with 8-bit lanes. -/
theorem areEqual_refl_witness : areEqual 8 .m256i (2 ^ 255 + 12345) (2 ^ 255 + 12345) = .ok true :=
  areEqual_refl .m256i 8 (2 ^ 255 + 12345) (Or.inr (Or.inl rfl)) (Or.inl rfl)

/-- C4: for a vector value v of register width R in 128, 256, 512, a bit
position k below R and a lane width L in 8, 16, 32, 64, `areEqual<L>` of v and
of v with bit k flipped returns false, and the lane of width L that contains
bit k, lane k / L, is one that differs. -/
theorem areEqual_flipBit (ty : VType) (R L v k : Nat)
    (hR : bitSize ty = .ok R) (hty : R = 128 ∨ R = 256 ∨ R = 512)
    (hL : L = 8 ∨ L = 16 ∨ L = 32 ∨ L = 64) (hk : k < R) :
    areEqual L ty v (flipBit v k) = .ok false ∧
      k / L < R / L ∧ laneBits L v (k / L) ≠ laneBits L (flipBit v k) (k / L) := by
  obtain ⟨t, ht, hbits⟩ := lanePointer_ok hL
  have hLpos : 0 < L := by omega
  have hdvd : L ∣ R := by
    rcases hty with h | h | h <;> rcases hL with l | l | l | l <;> subst h <;> subst l <;>
      decide
  have hlane : k / L < R / L := Nat.div_lt_div_of_lt_of_dvd hdvd hk
  have hne := laneBits_flipBit_ne L v k hLpos
  refine ⟨?_, hlane, hne⟩
  rw [areEqual_supported ht hR]
  congr 1
  cases hloop : areEqualLoop t v (flipBit v k) (R / L) 0 with
  | false => rfl
  | true =>
    exfalso
    rw [areEqualLoop_eq_true] at hloop
    have := (readLane_eq_iff t v (flipBit v k) (k / L)).1
      (hloop (k / L) (Nat.zero_le _) (by omega))
    rw [hbits] at this
    exact hne this

/-- Witness of C4: the top bit of a 512-bit register, compared in 64-bit
lanes. -/
theorem areEqual_flipBit_witness :
    areEqual 64 .m512i 99 (flipBit 99 511) = .ok false ∧
      511 / 64 < 512 / 64 ∧ laneBits 64 99 (511 / 64) ≠ laneBits 64 (flipBit 99 511) (511 / 64) :=
  areEqual_flipBit .m512i 512 64 99 511 rfl (Or.inr (Or.inr rfl))
    (Or.inr (Or.inr (Or.inr rfl))) (by decide)

/-- C5: for every iteration count N and every callable f, `static_for<N>(f)`
invokes f exactly N times, on the indices 0, 1, ..., N - 1 in ascending order,
each once: the log of a logging callable is that list, its length is N, the
state is the one f alone produces, and for N = 0 the log is empty. -/
theorem static_for_calls {σ : Type} (N : Nat) (f : Nat → σ → σ) (s : σ) :
    (static_for N (logged f) (s, [])).2 = List.range N ∧
      (static_for N (logged f) (s, [])).2.length = N ∧
      (static_for N (logged f) (s, [])).1 = static_for N f s ∧
      (static_for 0 (logged f) (s, [])).2 = [] := by
  simp [static_for, static_for_seq_logged, make_index_sequence, static_for_seq]

/-- C2: for every register width R in 128, 256, 512 and every lane width L in
8, 16, 32, 64, whatever the generator delivers, `vectorRandomizer<L>` returns a
vector whose i-th L-bit lane (lane 0 the least significant L bits), for every
i below R / L, is the i-th value drawn by the lane loop truncated to L bits
(a lane for which nothing is drawn keeps the initial 0); this covers all twelve
combinations, the descending-argument set intrinsics included. -/
theorem vectorRandomizer_lane_order {σ : Type} (rz : Randomizer σ) (ty : VType) (R L : Nat)
    (input : Nat) (s : σ) (hR : bitSize ty = .ok R)
    (hty : R = 128 ∨ R = 256 ∨ R = 512) (hL : L = 8 ∨ L = 16 ∨ L = 32 ∨ L = 64) :
    ∃ v, (vectorRandomizer rz L ty input s).1 = .ok v ∧
      ∀ i, i < R / L →
        laneBits L v i = ((((drawnValues rz L (rz.randInt 32 7 .int32_t s).1 (R / L)
          (rz.randInt 32 7 .int32_t s).2).getD i none).getD 0) % ((2 ^ L : Nat) : Int)).toNat :=
  vectorRandomizer_laneBits rz ty R L input s hR hty hL

/-- Witness of C2: a 512-bit register with 16-bit lanes, built with the
descending-argument intrinsic, on path 0. -/
theorem vectorRandomizer_lane_order_witness :
    ∃ v, (vectorRandomizer tapeRandomizer 16 .m512i 0 (0 :: List.range 32)).1 = .ok v ∧
      ∀ i, i < 512 / 16 →
        laneBits 16 v i = ((((drawnValues tapeRandomizer 16
          (tapeRandomizer.randInt 32 7 .int32_t (0 :: List.range 32)).1 (512 / 16)
          (tapeRandomizer.randInt 32 7 .int32_t (0 :: List.range 32)).2).getD i none).getD 0) %
            ((2 ^ 16 : Nat) : Int)).toNat :=
  vectorRandomizer_lane_order tapeRandomizer .m512i 512 16 0 (0 :: List.range 32) rfl
    (Or.inr (Or.inr rfl)) (Or.inr (Or.inl rfl))

/-- C6: if `randInt<w, B>()` with B > 0 returns a value v with 0 <= v < B, then
for every register width in 128, 256, 512, every lane width L in 8, 16, 32, 64
and every path p in 1..5 (the selector draw returned p), every lane of the
vector `vectorRandomizer` returns, read as a signed L-bit integer, holds a
value v with 0 <= v < B_p, where B_1 = 65, B_2 = 33, B_3 = 17, B_4 = 9,
B_5 = 5, and it is the very value drawn for the lane: the store into the L-bit
lane does not change it. -/
theorem vectorRandomizer_path_bound {σ : Type} (rz : Randomizer σ) (ty : VType) (R L p : Nat)
    (input : Nat) (s : σ) (hR : bitSize ty = .ok R)
    (hty : R = 128 ∨ R = 256 ∨ R = 512) (hL : L = 8 ∨ L = 16 ∨ L = 32 ∨ L = 64)
    (hrange : ∀ (w B : Nat) (ret : RetTy) (s : σ), 0 < B →
      0 ≤ (rz.randInt w B ret s).1 ∧ (rz.randInt w B ret s).1 < (B : Int))
    (hp : p = 1 ∨ p = 2 ∨ p = 3 ∨ p = 4 ∨ p = 5)
    (hpath : (rz.randInt 32 7 .int32_t s).1 = (p : Int)) :
    ∃ v, (vectorRandomizer rz L ty input s).1 = .ok v ∧
      ∀ i, i < R / L →
        0 ≤ toSigned L (laneBits L v i) ∧ toSigned L (laneBits L v i) < (pathBound p : Int) ∧
        toSigned L (laneBits L v i) = ((drawnValues rz L (p : Int) (R / L)
          (rz.randInt 32 7 .int32_t s).2).getD i none).getD 0 := by
  obtain ⟨v, hv, hlanes⟩ := vectorRandomizer_laneBits rz ty R L input s hR hty hL
  refine ⟨v, hv, ?_⟩
  intro i hi
  have hl := hlanes i hi
  rw [hpath] at hl
  obtain ⟨s0, hs0⟩ := drawnValues_getD rz L (p : Int) (R / L) (rz.randInt 32 7 .int32_t s).2 i hi
  rw [laneValue_gated rz L p s0 hp] at hs0
  have hb := pathBound_le p hp
  have hg := gatedDraw_range rz L (pathBound p) s0 hb.1 hrange
  rw [hs0] at hl ⊢
  simp only [Option.getD_some] at hl ⊢
  have hlt : (gatedDraw rz L (pathBound p) s0).1 < 128 := by
    have : ((pathBound p : Nat) : Int) ≤ 65 := by exact_mod_cast hb.2
    omega
  rw [hl, toSigned_small L _ hL hg.1 hlt]
  exact ⟨hg.1, hg.2, rfl⟩


/-- Witness of C6: 8-bit lanes of a 128-bit register on path 1. -/
theorem vectorRandomizer_path_bound_witness :
    ∃ v, (vectorRandomizer tapeRandomizer 8 .m128i 0 (1 :: List.replicate 32 64)).1 = .ok v ∧
      ∀ i, i < 128 / 8 →
        0 ≤ toSigned 8 (laneBits 8 v i) ∧ toSigned 8 (laneBits 8 v i) < (pathBound 1 : Int) ∧
        toSigned 8 (laneBits 8 v i) = ((drawnValues tapeRandomizer 8 ((1 : Nat) : Int) (128 / 8)
          (tapeRandomizer.randInt 32 7 .int32_t (1 :: List.replicate 32 64)).2).getD i none).getD 0 :=
  vectorRandomizer_path_bound tapeRandomizer .m128i 128 8 1 0 (1 :: List.replicate 32 64) rfl
    (Or.inl rfl) (Or.inl rfl) tapeRandomizer_range (Or.inl rfl) rfl

/-- C8, the code at its failing inputs: when `randIntInteresting<int64_t>`
returns members of the 64-bit corpus and the lane width L is 8, 16 or 32, every
lane of a vector synthesized on path 6 holds 0 or -1; the minimum signed L-bit
value belongs to the corpus for width L and is held by no lane. -/
theorem vectorRandomizer_path6_narrow {σ : Type} (rz : Randomizer σ) (ty : VType) (R L : Nat)
    (input : Nat) (s : σ) (hR : bitSize ty = .ok R)
    (hty : R = 128 ∨ R = 256 ∨ R = 512) (hL : L = 8 ∨ L = 16 ∨ L = 32)
    (hcorpus : ∀ s, (rz.randIntInteresting .int64_t s).1 ∈ interestingCorpus 64)
    (hpath : (rz.randInt 32 7 .int32_t s).1 = 6) :
    ∃ v, (vectorRandomizer rz L ty input s).1 = .ok v ∧
      (∀ i, i < R / L → toSigned L (laneBits L v i) = 0 ∨ toSigned L (laneBits L v i) = -1) ∧
      -(2 : Int) ^ (L - 1) ∈ interestingCorpus L ∧
      ∀ i, i < R / L → toSigned L (laneBits L v i) ≠ -(2 : Int) ^ (L - 1) := by
  have hL4 : L = 8 ∨ L = 16 ∨ L = 32 ∨ L = 64 := by omega
  obtain ⟨v, hv, hlanes⟩ := vectorRandomizer_laneBits rz ty R L input s hR hty hL4
  have hval : ∀ i, i < R / L →
      toSigned L (laneBits L v i) = 0 ∨ toSigned L (laneBits L v i) = -1 := by
    intro i hi
    have hl := hlanes i hi
    rw [hpath] at hl
    obtain ⟨s0, hs0⟩ := drawnValues_getD rz L 6 (R / L) (rz.randInt 32 7 .int32_t s).2 i hi
    rw [laneValue_six] at hs0
    rw [hs0] at hl
    simp only [Option.getD_some] at hl
    rw [hl]
    exact corpus64_narrow L _ hL (hcorpus s0)
  refine ⟨v, hv, hval, corpus_min_mem L, ?_⟩
  intro i hi h
  have hmin : -(2 : Int) ^ (L - 1) ≠ 0 ∧ -(2 : Int) ^ (L - 1) ≠ -1 := by
    rcases hL with l | l | l <;> subst l <;> decide
  rcases hval i hi with h0 | h1
  · exact hmin.1 (h ▸ h0)
  · exact hmin.2 (h ▸ h1)

/-- Witness of C8 at 8-bit lanes of a 128-bit register. -/
theorem vectorRandomizer_path6_narrow_witness :
    ∃ v, (vectorRandomizer tapeRandomizer 8 .m128i 0 (6 :: List.range 16)).1 = .ok v ∧
      (∀ i, i < 128 / 8 → toSigned 8 (laneBits 8 v i) = 0 ∨ toSigned 8 (laneBits 8 v i) = -1) ∧
      -(2 : Int) ^ (8 - 1) ∈ interestingCorpus 8 ∧
      ∀ i, i < 128 / 8 → toSigned 8 (laneBits 8 v i) ≠ -(2 : Int) ^ (8 - 1) :=
  vectorRandomizer_path6_narrow tapeRandomizer .m128i 128 8 0 (6 :: List.range 16) rfl
    (Or.inl rfl) (Or.inl rfl) (tapeRandomizer_interesting_mem .int64_t) rfl

/-- Counterexample to C9: on path 1 a 32-bit lane of the vector synthesizer can
hold 40 (its bound is 65), and `integerRandomizer` on path 1 never returns 40
(its bound is 33): the two do not apply the same distribution on path 1. -/
theorem integerRandomizer_path1_differs :
    (∃ s, (laneValue tapeRandomizer 32 1 s).1 = some 40) ∧
      ∀ s, (tapeRandomizer.randInt 32 6 .int32_t s).1 = 1 →
        (integerRandomizer tapeRandomizer s).1 ≠ 40 := by
  refine ⟨⟨[0, 40], by decide⟩, ?_⟩
  intro s hs
  have h := tapeRandomizer_range 32 33 .int32_t (tapeRandomizer.randInt 32 6 .int32_t s).2
    (by decide)
  have he : integerRandomizer tapeRandomizer s =
      tapeRandomizer.randInt 32 33 .int32_t (tapeRandomizer.randInt 32 6 .int32_t s).2 := by
    simp [integerRandomizer, hs]
  rw [he]
  omega

/-- C9, amended: `integerRandomizer` draws its selector from 6 paths
(`randInt<32, 6>`); on path 0 it returns a draw of `randInt<32, 0>`, the full
range, as the vector synthesizer does on its path 0; on the paths 1, 2, 3, 4 it
returns directly a draw below 33, 17, 9, 5, with no zero gate, the bound of
path q being the one the vector synthesizer puts behind its zero gate on its
path q + 1; on path 5 it returns an interesting value. -/
theorem integerRandomizer_paths {σ : Type} (rz : Randomizer σ) (s : σ) (q : Nat) (hq : q ≤ 5)
    (hsel : (rz.randInt 32 6 .int32_t s).1 = (q : Int)) :
    integerRandomizer rz s =
      (if q = 0 then rz.randInt 32 0 .int32_t (rz.randInt 32 6 .int32_t s).2
       else if q = 5 then rz.randIntInteresting .int32_t (rz.randInt 32 6 .int32_t s).2
       else rz.randInt 32 (pathBound (q + 1)) .int32_t (rz.randInt 32 6 .int32_t s).2) ∧
    (∀ s0, (laneValue rz 32 0 s0).1 = some (rz.randInt 32 0 .int64_t s0).1) ∧
    (∀ s0, 1 ≤ q → q ≤ 4 →
      (laneValue rz 32 ((q + 1 : Nat) : Int) s0).1 =
        some (gatedDraw rz 32 (pathBound (q + 1)) s0).1) := by
  refine ⟨?_, ?_, ?_⟩
  · interval_cases q <;> simp [integerRandomizer, hsel, pathBound]
  · intro s0
    simp [laneValue]
  · intro s0 h1 h4
    exact laneValue_gated rz 32 (q + 1) s0 (by omega)

/-- Witness of the amended C9 on path 1. -/
theorem integerRandomizer_paths_witness :
    integerRandomizer tapeRandomizer [1, 40] =
      (if 1 = 0 then tapeRandomizer.randInt 32 0 .int32_t
          (tapeRandomizer.randInt 32 6 .int32_t [1, 40]).2
       else if 1 = 5 then tapeRandomizer.randIntInteresting .int32_t
          (tapeRandomizer.randInt 32 6 .int32_t [1, 40]).2
       else tapeRandomizer.randInt 32 (pathBound (1 + 1)) .int32_t
          (tapeRandomizer.randInt 32 6 .int32_t [1, 40]).2) ∧
    (∀ s0, (laneValue tapeRandomizer 32 0 s0).1 =
      some (tapeRandomizer.randInt 32 0 .int64_t s0).1) ∧
    (∀ s0, 1 ≤ 1 → 1 ≤ 4 →
      (laneValue tapeRandomizer 32 ((1 + 1 : Nat) : Int) s0).1 =
        some (gatedDraw tapeRandomizer 32 (pathBound (1 + 1)) s0).1) :=
  integerRandomizer_paths tapeRandomizer [1, 40] 1 (by decide) rfl

/-- C10: `vectorRandomizer<L>` on an operand type signals an invalid-argument
fault if and only if the bit size of the type is not 128, 256 or 512 or L is
not 8, 16, 32 or 64; it returns a vector exactly for the supported pairs,
whatever the generator and its state are. -/
theorem vectorRandomizer_fault_iff {σ : Type} (rz : Randomizer σ) (ty : VType) (L : Nat)
    (input : Nat) (s : σ) :
    ((∃ e, (vectorRandomizer rz L ty input s).1 = .error e) ↔
      (¬ (bitSize ty = .ok 128 ∨ bitSize ty = .ok 256 ∨ bitSize ty = .ok 512) ∨
        ¬ (L = 8 ∨ L = 16 ∨ L = 32 ∨ L = 64))) ∧
    ((∃ v, (vectorRandomizer rz L ty input s).1 = .ok v) ↔
      ((bitSize ty = .ok 128 ∨ bitSize ty = .ok 256 ∨ bitSize ty = .ok 512) ∧
        (L = 8 ∨ L = 16 ∨ L = 32 ∨ L = 64))) := by
  by_cases hL : L = 8 ∨ L = 16 ∨ L = 32 ∨ L = 64
  · by_cases hty : bitSize ty = .ok 128 ∨ bitSize ty = .ok 256 ∨ bitSize ty = .ok 512
    · have hok : ∃ v, (vectorRandomizer rz L ty input s).1 = .ok v := by
        rcases hty with h | h | h
        · obtain ⟨v, hv, -⟩ := vectorRandomizer_laneBits rz ty 128 L input s h (Or.inl rfl) hL
          exact ⟨v, hv⟩
        · obtain ⟨v, hv, -⟩ := vectorRandomizer_laneBits rz ty 256 L input s h
            (Or.inr (Or.inl rfl)) hL
          exact ⟨v, hv⟩
        · obtain ⟨v, hv, -⟩ := vectorRandomizer_laneBits rz ty 512 L input s h
            (Or.inr (Or.inr rfl)) hL
          exact ⟨v, hv⟩
      obtain ⟨v, hv⟩ := hok
      simp [hv, hL, hty]
    · obtain ⟨t, ht, -⟩ := laneArray_ok hL
      have herr : ∃ e, (vectorRandomizer rz L ty input s).1 = .error e := by
        cases ty with
        | m512i => exact absurd (Or.inr (Or.inr rfl)) hty
        | m256i => exact absurd (Or.inr (Or.inl rfl)) hty
        | m128i => exact absurd (Or.inl rfl) hty
        | int32_t =>
          obtain ⟨e, he⟩ := packVector_scalar L
            (fillLanes rz L t (rz.randInt 32 7 .int32_t s).1 (32 / L) 0
              (List.replicate (32 / t.bits) 0) (rz.randInt 32 7 .int32_t s).2).1
          exact ⟨e, by simp [vectorRandomizer, bitSize, ht, he]⟩
        | other => simp [vectorRandomizer, bitSize]
      obtain ⟨e, he⟩ := herr
      simp [he, hL, hty]
  · obtain ⟨e, he⟩ := laneArray_error hL
    have herr : ∃ e, (vectorRandomizer rz L ty input s).1 = .error e := by
      cases hb : bitSize ty with
      | error e0 => exact ⟨e0, by simp [vectorRandomizer, hb]⟩
      | ok R => exact ⟨e, by simp [vectorRandomizer, hb, he]⟩
    obtain ⟨e1, he1⟩ := herr
    simp [he1, hL]

/-- C11: `vectorTypeIndex<b>()` returns 0 for b = 128, 1 for b = 256, 2 for
b = 512 and 3 for b = 32, and signals an invalid-argument fault for every other
b; on the four supported widths it is injective. -/
theorem vectorTypeIndex_spec (b : Int) :
    vectorTypeIndex 128 = .ok 0 ∧ vectorTypeIndex 256 = .ok 1 ∧
      vectorTypeIndex 512 = .ok 2 ∧ vectorTypeIndex 32 = .ok 3 ∧
      ((∃ msg, vectorTypeIndex b = .error (.invalid_argument msg)) ↔
        ¬ (b = 128 ∨ b = 256 ∨ b = 512 ∨ b = 32)) ∧
      (∀ c : Int, (b = 128 ∨ b = 256 ∨ b = 512 ∨ b = 32) →
        (c = 128 ∨ c = 256 ∨ c = 512 ∨ c = 32) →
        vectorTypeIndex b = vectorTypeIndex c → b = c) := by
  refine ⟨rfl, rfl, rfl, rfl, ?_, ?_⟩
  · by_cases h : b = 128 ∨ b = 256 ∨ b = 512 ∨ b = 32
    · rcases h with h | h | h | h <;> subst h <;> simp [vectorTypeIndex]
    · have h' := h
      simp only [not_or] at h'
      obtain ⟨h1, h2, h3, h4⟩ := h'
      simp [vectorTypeIndex, h1, h2, h3, h4]
  · intro c hb hc
    rcases hb with h | h | h | h <;> rcases hc with k | k | k | k <;> subst h <;> subst k <;>
      simp [vectorTypeIndex]

/-- C12: for b in 128, 256, 512, 32 `returnVectorType<b>()` returns a variant
whose active alternative is the type of bit size b, whose value has every bit
zero and whose alternative index is `vectorTypeIndex<b>()`; for every other b
it signals an invalid-argument fault. -/
theorem returnVectorType_spec (b : Int) :
    ((∃ var, returnVectorType b = .ok var ∧
        (∃ R : Nat, bitSize var.type = .ok R ∧ (R : Int) = b) ∧ var.value = 0 ∧
        vectorTypeIndex b = .ok (var.index : Int)) ↔
      (b = 128 ∨ b = 256 ∨ b = 512 ∨ b = 32)) ∧
    ((∃ msg, returnVectorType b = .error (.invalid_argument msg)) ↔
      ¬ (b = 128 ∨ b = 256 ∨ b = 512 ∨ b = 32)) := by
  by_cases h : b = 128 ∨ b = 256 ∨ b = 512 ∨ b = 32
  · rcases h with h | h | h | h <;> subst h
    · refine ⟨⟨fun _ => Or.inl rfl, fun _ => ⟨.m128i 0, rfl, ⟨128, rfl, rfl⟩, rfl, rfl⟩⟩, ?_⟩
      simp [returnVectorType]
    · refine ⟨⟨fun _ => Or.inr (Or.inl rfl),
        fun _ => ⟨.m256i 0, rfl, ⟨256, rfl, rfl⟩, rfl, rfl⟩⟩, ?_⟩
      simp [returnVectorType]
    · refine ⟨⟨fun _ => Or.inr (Or.inr (Or.inl rfl)),
        fun _ => ⟨.m512i 0, rfl, ⟨512, rfl, rfl⟩, rfl, rfl⟩⟩, ?_⟩
      simp [returnVectorType]
    · refine ⟨⟨fun _ => Or.inr (Or.inr (Or.inr rfl)),
        fun _ => ⟨.int32_t 0, rfl, ⟨32, rfl, rfl⟩, rfl, rfl⟩⟩, ?_⟩
      simp [returnVectorType]
  · have h' := h
    simp only [not_or] at h'
    obtain ⟨h1, h2, h3, h4⟩ := h'
    simp [returnVectorType, h1, h2, h3, h4]

/-- C15: for operands of types that `bitSize` accepts and lane widths in 8, 16,
32, 64, `printError<W1, W2, WR>(in1, in2, out1, out2)` appends to the stream,
in this order: a separator line of = characters, the header "Operand 1:" and
the dump of `printVec<W1>(in1)`, the header "Operand 2:" and the dump of
`printVec<W2>(in2)`, the header "Output 1(src):" and the dump of
`printVec<WR>(out1)`, the header "Output 2(intrinsic call):" and the dump of
`printVec<WR>(out2)`, and a closing separator line; both results are dumped at
the lane width WR. This holds whatever the cast reads of `printVec` deliver. -/
theorem printError_text (punned : ElemTy → VType → Nat → Nat → Int)
    (W1 W2 WR R1 R2 RR : Nat) (ty1 ty2 tyR : VType)
    (in1 in2 out1 out2 : Nat) (out : String)
    (h1 : bitSize ty1 = .ok R1) (h2 : bitSize ty2 = .ok R2) (hR : bitSize tyR = .ok RR)
    (hW1 : W1 = 8 ∨ W1 = 16 ∨ W1 = 32 ∨ W1 = 64) (hW2 : W2 = 8 ∨ W2 = 16 ∨ W2 = 32 ∨ W2 = 64)
    (hWR : WR = 8 ∨ WR = 16 ∨ WR = 32 ∨ WR = 64) :
    printError punned W1 W2 WR ty1 ty2 tyR in1 in2 out1 out2 out =
      (.ok (), out ++ "========================\n" ++
        "\nOperand 1:\n" ++ (printVec punned W1 ty1 in1 "").2 ++
        "\nOperand 2:\n" ++ (printVec punned W2 ty2 in2 "").2 ++
        "\nOutput 1(src):\n" ++ (printVec punned WR tyR out1 "").2 ++
        "\nOutput 2(intrinsic call):\n" ++ (printVec punned WR tyR out2 "").2 ++
        "\n========================\n\n") := by
  unfold printError
  simp only []
  rw [printVec_append punned W1 R1 ty1 in1 _ h1 hW1]
  simp only []
  rw [printVec_append punned W2 R2 ty2 in2 (_ ++ "\nOperand 2:\n") h2 hW2]
  simp only []
  rw [printVec_append punned WR RR tyR out1 (_ ++ "\nOutput 1(src):\n") hR hWR]
  simp only []
  rw [printVec_append punned WR RR tyR out2 (_ ++ "\nOutput 2(intrinsic call):\n") hR hWR]

/-- Witness of C15: 128-bit operands and results with mixed lane widths. -/
theorem printError_text_witness :
    printError (fun t _ input i => readLane t input i) 8 16 32 .m128i .m128i .m128i 1 2 3 4 "" =
      (.ok (), "" ++ "========================\n" ++
        "\nOperand 1:\n" ++ (printVec (fun t _ input i => readLane t input i) 8 .m128i 1 "").2 ++
        "\nOperand 2:\n" ++ (printVec (fun t _ input i => readLane t input i) 16 .m128i 2 "").2 ++
        "\nOutput 1(src):\n" ++
          (printVec (fun t _ input i => readLane t input i) 32 .m128i 3 "").2 ++
        "\nOutput 2(intrinsic call):\n" ++
          (printVec (fun t _ input i => readLane t input i) 32 .m128i 4 "").2 ++
        "\n========================\n\n") :=
  printError_text (fun t _ input i => readLane t input i) 8 16 32 128 128 128
    .m128i .m128i .m128i 1 2 3 4 "" rfl rfl rfl
    (Or.inl rfl) (Or.inr (Or.inl rfl)) (Or.inr (Or.inr (Or.inl rfl)))

/-- C14: in a call of `vectorRandomizer` on a supported register and lane
width the path selector `randInt<32, 7>` is drawn exactly once, as the first
draw of the call, and every one of the R / L lanes holds the value that the
branch chain delivers for that one selector value; for a selector value in
0..6 a branch applies to every lane, so that none is left unassigned. -/
theorem vectorRandomizer_single_path {σ : Type} (rz : Randomizer σ) (ty : VType) (R L : Nat)
    (input : Nat) (s : σ) (hR : bitSize ty = .ok R)
    (hty : R = 128 ∨ R = 256 ∨ R = 512) (hL : L = 8 ∨ L = 16 ∨ L = 32 ∨ L = 64) :
    (∃ ext, (vectorRandomizer (recording rz) L ty input (s, [])).2.2 =
        Call.randInt 32 7 .int32_t :: ext ∧ Call.randInt 32 7 .int32_t ∉ ext) ∧
      (vectorRandomizer (recording rz) L ty input (s, [])).2.2.count
        (Call.randInt 32 7 .int32_t) = 1 ∧
      ∃ v, (vectorRandomizer rz L ty input s).1 = .ok v ∧
        ∀ i, i < R / L → ∃ s0,
          laneBits L v i = ((((laneValue rz L (rz.randInt 32 7 .int32_t s).1 s0).1).getD 0) %
            ((2 ^ L : Nat) : Int)).toNat ∧
          (0 ≤ (rz.randInt 32 7 .int32_t s).1 → (rz.randInt 32 7 .int32_t s).1 ≤ 6 →
            ∃ x, (laneValue rz L (rz.randInt 32 7 .int32_t s).1 s0).1 = some x) := by
  have hlog : ∃ ext, (vectorRandomizer (recording rz) L ty input (s, [])).2.2 =
      Call.randInt 32 7 .int32_t :: ext ∧ Call.randInt 32 7 .int32_t ∉ ext := by
    rw [vectorRandomizer_state (recording rz) ty R L input (s, []) hR hL]
    obtain ⟨ext, h1, h2⟩ := drawnState_log rz L ((recording rz).randInt 32 7 .int32_t (s, [])).1
      (R / L) ((recording rz).randInt 32 7 .int32_t (s, [])).2
    exact ⟨ext, by rw [h1, recording_randInt_log]; rfl, h2⟩
  refine ⟨hlog, ?_, ?_⟩
  · obtain ⟨ext, h1, h2⟩ := hlog
    rw [h1, List.count_cons_self, List.count_eq_zero_of_not_mem h2]
  · obtain ⟨v, hv, hlanes⟩ := vectorRandomizer_laneBits rz ty R L input s hR hty hL
    refine ⟨v, hv, ?_⟩
    intro i hi
    obtain ⟨s0, hs0⟩ := drawnValues_getD rz L (rz.randInt 32 7 .int32_t s).1 (R / L)
      (rz.randInt 32 7 .int32_t s).2 i hi
    refine ⟨s0, ?_, fun h0 h6 => laneValue_isSome rz L _ s0 h0 h6⟩
    rw [hlanes i hi, hs0]

/-- Witness of C14: 32-bit lanes of a 128-bit register. -/
theorem vectorRandomizer_single_path_witness :
    (∃ ext, (vectorRandomizer (recording tapeRandomizer) 32 .m128i 0 ([1, 0, 40], [])).2.2 =
        Call.randInt 32 7 .int32_t :: ext ∧ Call.randInt 32 7 .int32_t ∉ ext) ∧
      (vectorRandomizer (recording tapeRandomizer) 32 .m128i 0 ([1, 0, 40], [])).2.2.count
        (Call.randInt 32 7 .int32_t) = 1 ∧
      ∃ v, (vectorRandomizer tapeRandomizer 32 .m128i 0 [1, 0, 40]).1 = .ok v ∧
        ∀ i, i < 128 / 32 → ∃ s0,
          laneBits 32 v i = ((((laneValue tapeRandomizer 32
            (tapeRandomizer.randInt 32 7 .int32_t [1, 0, 40]).1 s0).1).getD 0) %
              ((2 ^ 32 : Nat) : Int)).toNat ∧
          (0 ≤ (tapeRandomizer.randInt 32 7 .int32_t [1, 0, 40]).1 →
            (tapeRandomizer.randInt 32 7 .int32_t [1, 0, 40]).1 ≤ 6 →
            ∃ x, (laneValue tapeRandomizer 32
              (tapeRandomizer.randInt 32 7 .int32_t [1, 0, 40]).1 s0).1 = some x) :=
  vectorRandomizer_single_path tapeRandomizer .m128i 128 32 0 [1, 0, 40] rfl (Or.inl rfl)
    (Or.inr (Or.inr (Or.inl rfl)))

/-- Counterexample to C16: for the scalar operand type (register width 32) and
8-bit lanes the call faults, and the generator has moved on by the selector
draw and four lane draws. -/
theorem vectorRandomizer_late_fault :
    (∃ msg, (vectorRandomizer tapeRandomizer 8 .int32_t 0 [0, 1, 2, 3, 4, 5, 6, 7]).1 =
        .error (.invalid_argument msg)) ∧
      (vectorRandomizer tapeRandomizer 8 .int32_t 0 [0, 1, 2, 3, 4, 5, 6, 7]).2 = [5, 6, 7] ∧
      (vectorRandomizer tapeRandomizer 8 .int32_t 0 [0, 1, 2, 3, 4, 5, 6, 7]).2 ≠
        [0, 1, 2, 3, 4, 5, 6, 7] := by
  refine ⟨⟨_, rfl⟩, by decide, by decide⟩

/-- C16, amended: a fault of `vectorRandomizer` for an unsupported lane width,
or for an operand type that `bitSize` rejects, is signalled before any draw and
leaves the generator state as it was; a fault for the operand type that
`bitSize` accepts with an unsupported register width (the 32-bit scalar), at a
supported lane width, is signalled after the selector and the 32 / L lanes have
been drawn, and leaves the state those draws lead to. -/
theorem vectorRandomizer_fault_state {σ : Type} (rz : Randomizer σ) (ty : VType) (L : Nat)
    (input : Nat) (s : σ) (hf : ∃ e, (vectorRandomizer rz L ty input s).1 = .error e) :
    ((¬ (L = 8 ∨ L = 16 ∨ L = 32 ∨ L = 64) ∨ ty = .other) ∧
        (vectorRandomizer rz L ty input s).2 = s) ∨
      ((L = 8 ∨ L = 16 ∨ L = 32 ∨ L = 64) ∧ ty = .int32_t ∧
        (vectorRandomizer rz L ty input s).2 =
          drawnState rz L (rz.randInt 32 7 .int32_t s).1 (32 / L)
            (rz.randInt 32 7 .int32_t s).2) := by
  by_cases hL : L = 8 ∨ L = 16 ∨ L = 32 ∨ L = 64
  · cases ty with
    | other => exact Or.inl ⟨Or.inr rfl, by simp [vectorRandomizer, bitSize]⟩
    | int32_t => exact Or.inr ⟨hL, rfl, vectorRandomizer_state rz .int32_t 32 L input s rfl hL⟩
    | m128i =>
      obtain ⟨v, hv, -⟩ := vectorRandomizer_laneBits rz .m128i 128 L input s rfl (Or.inl rfl) hL
      obtain ⟨e, he⟩ := hf
      rw [hv] at he
      cases he
    | m256i =>
      obtain ⟨v, hv, -⟩ := vectorRandomizer_laneBits rz .m256i 256 L input s rfl
        (Or.inr (Or.inl rfl)) hL
      obtain ⟨e, he⟩ := hf
      rw [hv] at he
      cases he
    | m512i =>
      obtain ⟨v, hv, -⟩ := vectorRandomizer_laneBits rz .m512i 512 L input s rfl
        (Or.inr (Or.inr rfl)) hL
      obtain ⟨e, he⟩ := hf
      rw [hv] at he
      cases he
  · refine Or.inl ⟨Or.inl hL, ?_⟩
    obtain ⟨e, he⟩ := laneArray_error hL
    cases hb : bitSize ty with
    | error e0 => simp [vectorRandomizer, hb]
    | ok R => simp [vectorRandomizer, hb, he]

/-- Witness of the amended C16: the scalar operand type at 8-bit lanes. -/
theorem vectorRandomizer_fault_state_witness :
    ((¬ (8 = 8 ∨ 8 = 16 ∨ 8 = 32 ∨ 8 = 64) ∨ VType.int32_t = .other) ∧
        (vectorRandomizer tapeRandomizer 8 .int32_t 0 [0, 1, 2, 3, 4, 5, 6, 7]).2 =
          [0, 1, 2, 3, 4, 5, 6, 7]) ∨
      ((8 = 8 ∨ 8 = 16 ∨ 8 = 32 ∨ 8 = 64) ∧ VType.int32_t = .int32_t ∧
        (vectorRandomizer tapeRandomizer 8 .int32_t 0 [0, 1, 2, 3, 4, 5, 6, 7]).2 =
          drawnState tapeRandomizer 8
            (tapeRandomizer.randInt 32 7 .int32_t [0, 1, 2, 3, 4, 5, 6, 7]).1 (32 / 8)
            (tapeRandomizer.randInt 32 7 .int32_t [0, 1, 2, 3, 4, 5, 6, 7]).2) :=
  vectorRandomizer_fault_state tapeRandomizer .int32_t 8 0 [0, 1, 2, 3, 4, 5, 6, 7] ⟨_, rfl⟩

/-- C17: for a register width R in 128, 256, 512, any two operands a and b and
any two lane widths L1, L2 in 8, 16, 32, 64, `areEqual<L1>(a, b)` and
`areEqual<L2>(a, b)` give the same result, and it is true exactly when a and b
have the same R-bit pattern. -/
theorem areEqual_lane_width_independent (ty : VType) (R L1 L2 a b : Nat)
    (hR : bitSize ty = .ok R) (hty : R = 128 ∨ R = 256 ∨ R = 512)
    (hL1 : L1 = 8 ∨ L1 = 16 ∨ L1 = 32 ∨ L1 = 64) (hL2 : L2 = 8 ∨ L2 = 16 ∨ L2 = 32 ∨ L2 = 64) :
    areEqual L1 ty a b = areEqual L2 ty a b ∧
      (areEqual L1 ty a b = .ok true ↔ a % 2 ^ R = b % 2 ^ R) := by
  have hcov : ∀ L, (L = 8 ∨ L = 16 ∨ L = 32 ∨ L = 64) → L * (R / L) = R := by
    intro L hL
    rcases hL with l | l | l | l
    · exact lane_cover R L (by omega) (Or.inl l)
    · exact lane_cover R L (by omega) (Or.inr (Or.inl l))
    · exact lane_cover R L (by omega) (Or.inr (Or.inr l))
    · subst l; exact lane_cover64 R hty
  have h1 := areEqual_iff_mod ty R L1 a b hR hL1
  have h2 := areEqual_iff_mod ty R L2 a b hR hL2
  rw [hcov L1 hL1] at h1
  rw [hcov L2 hL2] at h2
  refine ⟨by rw [h1, h2], ?_⟩
  rw [h1]
  simp

/-- Witness of C17: 8-bit against 64-bit lanes on a 256-bit register. -/
theorem areEqual_lane_width_independent_witness :
    areEqual 8 .m256i 5 (5 + 2 ^ 200) = areEqual 64 .m256i 5 (5 + 2 ^ 200) ∧
      (areEqual 8 .m256i 5 (5 + 2 ^ 200) = .ok true ↔ 5 % 2 ^ 256 = (5 + 2 ^ 200) % 2 ^ 256) :=
  areEqual_lane_width_independent .m256i 256 8 64 5 (5 + 2 ^ 200) rfl (Or.inr (Or.inl rfl))
    (Or.inl rfl) (Or.inr (Or.inr (Or.inr rfl)))

/-- C18: for the scalar operand type (bit size 32), `areEqual<64>(a, b)`
compares 32 / 64 = 0 lanes and returns true for every pair of 32-bit values a
and b, equal or not; for the lane widths 8, 16 and 32 it returns a boolean that
is true if and only if a = b. -/
theorem areEqual_scalar (L a b : Nat) (hL : L = 8 ∨ L = 16 ∨ L = 32)
    (ha : a < 2 ^ 32) (hb : b < 2 ^ 32) :
    areEqual 64 .int32_t a b = .ok true ∧
      (∃ r, areEqual L .int32_t a b = .ok r ∧ (r = true ↔ a = b)) := by
  refine ⟨rfl, ?_⟩
  have h1 := areEqual_iff_mod .int32_t 32 L a b rfl (by omega)
  rw [lane_cover 32 L (by omega) hL, Nat.mod_eq_of_lt ha, Nat.mod_eq_of_lt hb] at h1
  exact ⟨_, h1, by simp⟩

/-- Witness of C18: two different scalars, compared at 64 and at 8 bits. -/
theorem areEqual_scalar_witness :
    areEqual 64 .int32_t 1 2 = .ok true ∧
      (∃ r, areEqual 8 .int32_t 1 2 = .ok r ∧ (r = true ↔ 1 = 2)) :=
  areEqual_scalar 8 1 2 (Or.inl rfl) (by decide) (by decide)

/-- C19: `areEqual` never signals the fault "Vectors can't be equal - differing
sizes!": its guard compares the bit size of the operand type with itself. For
every operand type that `bitSize` accepts and every lane width in 8, 16, 32, 64
it returns a boolean, and it returns one only then. -/
theorem areEqual_never_differing_sizes (ty : VType) (L a b : Nat) :
    areEqual L ty a b ≠ .error (.invalid_argument "Vectors can't be equal - differing sizes!") ∧
      (((∃ R, bitSize ty = .ok R) ∧ (L = 8 ∨ L = 16 ∨ L = 32 ∨ L = 64)) ↔
        ∃ r, areEqual L ty a b = .ok r) := by
  by_cases hL : L = 8 ∨ L = 16 ∨ L = 32 ∨ L = 64
  · obtain ⟨t, ht, -⟩ := lanePointer_ok hL
    cases hb : bitSize ty with
    | ok R =>
      rw [areEqual_supported ht hb]
      simp [hL]
    | error e =>
      have he : areEqual L ty a b = .error e := by simp [areEqual, ht, hb]
      rw [he]
      refine ⟨?_, by simp⟩
      cases ty <;> simp [bitSize] at hb
      subst hb
      decide
  · have h' := hL
    simp only [not_or] at h'
    obtain ⟨h8, h16, h32, h64⟩ := h'
    have he : areEqual L ty a b =
        .error (.invalid_argument "Bitwidth must be powers of 2 between 2 and 64") := by
      simp [areEqual, lanePointer, h8, h16, h32, h64]
    rw [he]
    exact ⟨by decide, by simp [hL]⟩

/-- Counterexample to C7: on path 1 with 8-bit lanes the outcomes of the draws
`laneValue` makes, each weighted by the ranges of its draws, leave the lane
zero with probability 49/65, which is not 3/4. -/
theorem zero_probability_path1 :
    probability (laneOutcomes .int8_t 1) (fun o => decide (o.1 = 0)) = 49 / 65 ∧
      probability (laneOutcomes .int8_t 1) (fun o => decide (o.1 = 0)) ≠ 3 / 4 := by
  have h := (lane_eventRanges .int8_t 1 (Or.inl rfl)).2.1
  have hb : pathBound 1 = 65 := rfl
  rw [hb] at h
  unfold probability
  rw [h]
  norm_num

/-- C7, amended: with uniform and independent draws, for each path p in 1..5
and each lane type, the outcomes of the draws `laneValue` makes have total
probability 1; with probability 3/4 the gate draw alone decides and the lane is
assigned the literal zero without a second draw; and the lane is exactly zero
with probability 3/4 + 1/(4 B_p), the bounded draw being zero once in B_p
times. -/
theorem zero_probability_gated (t : ElemTy) (p : Nat)
    (hp : p = 1 ∨ p = 2 ∨ p = 3 ∨ p = 4 ∨ p = 5) :
    probability (laneOutcomes t p) (fun _ => true) = 1 ∧
      probability (laneOutcomes t p) (fun o => decide (o.2.length = 1)) = 3 / 4 ∧
      probability (laneOutcomes t p) (fun o => decide (o.1 = 0)) =
        3 / 4 + 1 / (4 * (pathBound p : ℚ)) := by
  obtain ⟨h1, h2, h3⟩ := lane_eventRanges t p hp
  have hB := (pathBound_le p hp).1
  have hBq : (pathBound p : ℚ) ≠ 0 := by exact_mod_cast (Nat.pos_iff_ne_zero.mp hB)
  unfold probability
  rw [h1, h2, h3]
  refine ⟨?_, ?_, ?_⟩
  · simp only [List.map_append, List.map_replicate, List.sum_append, List.sum_replicate,
      List.prod_cons, List.prod_nil]
    push_cast
    simp only [nsmul_eq_mul]
    field_simp
    ring
  · simp only [List.map_replicate, List.sum_replicate, List.prod_cons, List.prod_nil]
    norm_num
  · simp only [List.map_cons, List.map_replicate, List.sum_cons, List.sum_replicate,
      List.prod_cons, List.prod_nil]
    push_cast
    simp only [nsmul_eq_mul]
    field_simp
    ring

/-- Witness of the amended C7: 8-bit lanes on path 5. -/
theorem zero_probability_gated_witness :
    probability (laneOutcomes .int8_t 5) (fun _ => true) = 1 ∧
      probability (laneOutcomes .int8_t 5) (fun o => decide (o.2.length = 1)) = 3 / 4 ∧
      probability (laneOutcomes .int8_t 5) (fun o => decide (o.1 = 0)) =
        3 / 4 + 1 / (4 * (pathBound 5 : ℚ)) :=
  zero_probability_gated .int8_t 5 (Or.inr (Or.inr (Or.inr (Or.inr rfl))))

end IntrinsicsTester
